import Mathlib

/-!
Verification of the TrolleySaver frontend logic: the `useStaplesBasket` hook,
the `ComparePage` product grouping, the cheapest-price flagging of the compare
views, the basket store-total marking, the `getSpecials` query construction,
the infinite-scroll paging protocol, the store tables of the UI, and the
localStorage JSON round trip of the basket.

JavaScript values are modelled as follows: `number` becomes `Int` where the
code only ever holds integers (ids, page numbers) and `Rat` where arbitrary
numbers flow through (quantities, prices, totals); `string` becomes `String`;
`T | null` and optional fields become `Option T`.  `NaN` is modelled as `none`
where it can arise from parsing.
-/

namespace TrolleySaver

/-! ## Basket data model and operations (`useStaplesBasket.ts`) -/

/-- A shopping-basket line as held by the `useStaplesBasket` hook
(`BasketItemWithName`, which is `BasketItem` of `types/index.ts` together with
its `product_name`): a product id, its display name, and a quantity. -/
structure BasketItemWithName where
  product_id : Int
  product_name : String
  quantity : Rat
deriving DecidableEq

/-- `addItem` from `useStaplesBasket.ts`: if the product is already in the
basket (`prev.find`) every line with that id has its quantity incremented
(`prev.map`), otherwise a new line with quantity 1 is appended. -/
def addItem (productId : Int) (productName : String)
    (prev : List BasketItemWithName) : List BasketItemWithName :=
  match prev.find? (fun item => item.product_id == productId) with
  | some _ =>
    prev.map (fun item =>
      if item.product_id == productId then
        { item with quantity := item.quantity + 1 }
      else item)
  | none => prev ++ [⟨productId, productName, 1⟩]

/-- `removeItem` from `useStaplesBasket.ts`: keep the lines whose id differs
from `productId`. -/
def removeItem (productId : Int)
    (prev : List BasketItemWithName) : List BasketItemWithName :=
  prev.filter (fun item => !(item.product_id == productId))

/-- `updateQuantity` from `useStaplesBasket.ts`: a quantity `≤ 0` removes the
line; otherwise every line with the id gets the new quantity. -/
def updateQuantity (productId : Int) (quantity : Rat)
    (prev : List BasketItemWithName) : List BasketItemWithName :=
  if quantity ≤ 0 then removeItem productId prev
  else
    prev.map (fun item =>
      if item.product_id == productId then { item with quantity := quantity }
      else item)

/-- `incrementQuantity` from `useStaplesBasket.ts`. -/
def incrementQuantity (productId : Int)
    (prev : List BasketItemWithName) : List BasketItemWithName :=
  prev.map (fun item =>
    if item.product_id == productId then
      { item with quantity := item.quantity + 1 }
    else item)

/-- `decrementQuantity` from `useStaplesBasket.ts`: when the line found for the
id has quantity `≤ 1` the line is removed, otherwise every line with the id is
decremented. -/
def decrementQuantity (productId : Int)
    (prev : List BasketItemWithName) : List BasketItemWithName :=
  match prev.find? (fun i => i.product_id == productId) with
  | some item =>
    if item.quantity ≤ 1 then
      prev.filter (fun i => !(i.product_id == productId))
    else
      prev.map (fun i =>
        if i.product_id == productId then { i with quantity := i.quantity - 1 }
        else i)
  | none =>
    prev.map (fun i =>
      if i.product_id == productId then { i with quantity := i.quantity - 1 }
      else i)

/-- `clearBasket` from `useStaplesBasket.ts`. -/
def clearBasket (_prev : List BasketItemWithName) : List BasketItemWithName :=
  []

/-- `totalItems` from `useStaplesBasket.ts`:
`items.reduce((sum, item) => sum + item.quantity, 0)`. -/
def totalItems (items : List BasketItemWithName) : Rat :=
  items.foldl (fun sum item => sum + item.quantity) 0

/-- One invocation of a basket-mutating callback of `useStaplesBasket`. -/
inductive BasketOp where
  | add (productId : Int) (productName : String)
  | remove (productId : Int)
  | update (productId : Int) (quantity : Rat)
  | increment (productId : Int)
  | decrement (productId : Int)
  | clear
deriving DecidableEq

/-- Run one basket operation. -/
def applyOp (items : List BasketItemWithName) : BasketOp → List BasketItemWithName
  | .add pid name => addItem pid name items
  | .remove pid => removeItem pid items
  | .update pid q => updateQuantity pid q items
  | .increment pid => incrementQuantity pid items
  | .decrement pid => decrementQuantity pid items
  | .clear => clearBasket items

/-- Run a sequence of basket operations from a starting state. -/
def applyOps (ops : List BasketOp) (items : List BasketItemWithName) :
    List BasketItemWithName :=
  ops.foldl applyOp items

/-- Well-formedness of a basket state: every quantity is positive and no two
lines share a product id. -/
def BasketWF (items : List BasketItemWithName) : Prop :=
  (∀ item ∈ items, 0 < item.quantity) ∧
    (items.map (fun item => item.product_id)).Nodup

lemma foldl_add_shift : ∀ (l : List BasketItemWithName) (init : Rat),
    l.foldl (fun s i => s + i.quantity) init =
      init + l.foldl (fun s i => s + i.quantity) 0
  | [], init => by simp
  | a :: t, init => by
    rw [List.foldl_cons, List.foldl_cons, foldl_add_shift t (init + a.quantity),
      foldl_add_shift t (0 + a.quantity)]
    ring

lemma totalItems_cons (a : BasketItemWithName) (l : List BasketItemWithName) :
    totalItems (a :: l) = a.quantity + totalItems l := by
  simp only [totalItems, List.foldl_cons]
  rw [foldl_add_shift l (0 + a.quantity), zero_add]

lemma totalItems_append (l₁ l₂ : List BasketItemWithName) :
    totalItems (l₁ ++ l₂) = totalItems l₁ + totalItems l₂ := by
  simp only [totalItems, List.foldl_append]
  rw [foldl_add_shift l₂ (l₁.foldl (fun s i => s + i.quantity) 0)]

lemma map_ids_eq (l : List BasketItemWithName) (f : BasketItemWithName → BasketItemWithName)
    (h : ∀ x, (f x).product_id = x.product_id) :
    (l.map f).map (fun i => i.product_id) = l.map (fun i => i.product_id) := by
  rw [List.map_map]
  exact List.map_congr_left (fun a _ => h a)

lemma bump_id (pid : Int) (x : BasketItemWithName) :
    ((if x.product_id == pid then { x with quantity := x.quantity + 1 } else x) :
      BasketItemWithName).product_id = x.product_id := by
  by_cases h : x.product_id == pid <;> simp [h]

lemma set_id (pid : Int) (q : Rat) (x : BasketItemWithName) :
    ((if x.product_id == pid then { x with quantity := q } else x) :
      BasketItemWithName).product_id = x.product_id := by
  by_cases h : x.product_id == pid <;> simp [h]

lemma decr_id (pid : Int) (x : BasketItemWithName) :
    ((if x.product_id == pid then { x with quantity := x.quantity - 1 } else x) :
      BasketItemWithName).product_id = x.product_id := by
  by_cases h : x.product_id == pid <;> simp [h]

lemma basketWF_addItem (pid : Int) (name : String) (prev : List BasketItemWithName)
    (h : BasketWF prev) : BasketWF (addItem pid name prev) := by
  obtain ⟨hq, hnd⟩ := h
  unfold addItem
  cases hfind : prev.find? (fun item => item.product_id == pid) with
  | some x =>
    refine ⟨?_, ?_⟩
    · intro item hitem
      obtain ⟨y, hy, rfl⟩ := List.mem_map.mp hitem
      by_cases hid : y.product_id == pid
      · simp only [hid, if_true]
        have := hq y hy
        positivity
      · simpa [hid] using hq y hy
    · rw [map_ids_eq _ _ (bump_id pid)]
      exact hnd
  | none =>
    have hnotin : ∀ x ∈ prev, x.product_id ≠ pid := by
      intro x hx
      have := List.find?_eq_none.mp hfind x hx
      simpa using this
    refine ⟨?_, ?_⟩
    · intro item hitem
      rcases List.mem_append.mp hitem with hmem | hmem
      · exact hq item hmem
      · simp only [List.mem_singleton] at hmem
        subst hmem
        norm_num
    · rw [List.map_append]
      rw [List.nodup_append]
      refine ⟨hnd, List.nodup_singleton _, ?_⟩
      intro a ha hb
      simp only [List.map_cons, List.map_nil, List.mem_singleton] at hb
      obtain ⟨y, hy, rfl⟩ := List.mem_map.mp ha
      exact hnotin y hy hb

lemma basketWF_removeItem (pid : Int) (prev : List BasketItemWithName)
    (h : BasketWF prev) : BasketWF (removeItem pid prev) := by
  obtain ⟨hq, hnd⟩ := h
  refine ⟨?_, ?_⟩
  · intro item hitem
    exact hq item (List.mem_of_mem_filter hitem)
  · exact ((List.filter_sublist prev).map (fun i => i.product_id)).nodup hnd

lemma basketWF_updateQuantity (pid : Int) (q : Rat) (prev : List BasketItemWithName)
    (h : BasketWF prev) : BasketWF (updateQuantity pid q prev) := by
  obtain ⟨hq, hnd⟩ := h
  unfold updateQuantity
  by_cases hq0 : q ≤ 0
  · simpa [hq0] using basketWF_removeItem pid prev ⟨hq, hnd⟩
  · simp only [hq0, if_false]
    refine ⟨?_, ?_⟩
    · intro item hitem
      obtain ⟨y, hy, rfl⟩ := List.mem_map.mp hitem
      by_cases hid : y.product_id == pid
      · simp only [hid, if_true]
        push_neg at hq0
        exact hq0
      · simpa [hid] using hq y hy
    · rw [map_ids_eq _ _ (set_id pid q)]
      exact hnd

lemma basketWF_incrementQuantity (pid : Int) (prev : List BasketItemWithName)
    (h : BasketWF prev) : BasketWF (incrementQuantity pid prev) := by
  obtain ⟨hq, hnd⟩ := h
  unfold incrementQuantity
  refine ⟨?_, ?_⟩
  · intro item hitem
    obtain ⟨y, hy, rfl⟩ := List.mem_map.mp hitem
    by_cases hid : y.product_id == pid
    · simp only [hid, if_true]
      have := hq y hy
      positivity
    · simpa [hid] using hq y hy
  · rw [map_ids_eq _ _ (bump_id pid)]
    exact hnd

lemma basketWF_decrementQuantity (pid : Int) (prev : List BasketItemWithName)
    (h : BasketWF prev) : BasketWF (decrementQuantity pid prev) := by
  obtain ⟨hq, hnd⟩ := h
  unfold decrementQuantity
  cases hfind : prev.find? (fun i => i.product_id == pid) with
  | some item =>
    have hmem : item ∈ prev := List.mem_of_find?_eq_some hfind
    have hid : item.product_id = pid := by
      have := List.find?_some hfind
      simpa using this
    by_cases hle : item.quantity ≤ 1
    · simp only [hle, if_true]
      exact basketWF_removeItem pid prev ⟨hq, hnd⟩
    · simp only [hle, if_false]
      push_neg at hle
      refine ⟨?_, ?_⟩
      · intro it hit
        obtain ⟨y, hy, rfl⟩ := List.mem_map.mp hit
        by_cases hyid : y.product_id == pid
        · have hy_eq : y = item := by
            apply List.inj_on_of_nodup_map hnd hy hmem
            rw [hid]
            simpa using hyid
          subst hy_eq
          simp only [hyid, if_true]
          linarith
        · simpa [hyid] using hq y hy
      · rw [map_ids_eq _ _ (decr_id pid)]
        exact hnd
  | none =>
    have hnotin : ∀ x ∈ prev, x.product_id ≠ pid := by
      intro x hx
      have := List.find?_eq_none.mp hfind x hx
      simpa using this
    refine ⟨?_, ?_⟩
    · intro it hit
      obtain ⟨y, hy, rfl⟩ := List.mem_map.mp hit
      have : ¬ (y.product_id == pid) := by simpa using hnotin y hy
      simpa [this] using hq y hy
    · rw [map_ids_eq _ _ (decr_id pid)]
      exact hnd

lemma basketWF_applyOp (items : List BasketItemWithName) (op : BasketOp)
    (h : BasketWF items) : BasketWF (applyOp items op) := by
  cases op with
  | add pid name => exact basketWF_addItem pid name items h
  | remove pid => exact basketWF_removeItem pid items h
  | update pid q => exact basketWF_updateQuantity pid q items h
  | increment pid => exact basketWF_incrementQuantity pid items h
  | decrement pid => exact basketWF_decrementQuantity pid items h
  | clear => exact ⟨fun item hitem => absurd hitem (List.not_mem_nil item), List.nodup_nil⟩

lemma basketWF_applyOps (ops : List BasketOp) (items : List BasketItemWithName)
    (h : BasketWF items) : BasketWF (applyOps ops items) := by
  induction ops generalizing items with
  | nil => exact h
  | cons op rest ih => exact ih _ (basketWF_applyOp items op h)

lemma basketWF_nil : BasketWF [] := ⟨by simp, by simp⟩

lemma find_isSome_iff_mem_ids (prev : List BasketItemWithName) (pid : Int) :
    (prev.find? (fun item => item.product_id == pid)).isSome ↔
      pid ∈ prev.map (fun i => i.product_id) := by
  rw [List.find?_isSome]
  simp only [List.mem_map, beq_iff_eq]

lemma totalItems_bump (prev : List BasketItemWithName) (pid : Int)
    (hnd : (prev.map (fun i => i.product_id)).Nodup)
    (hmem : pid ∈ prev.map (fun i => i.product_id)) :
    totalItems (prev.map (fun item =>
      if item.product_id == pid then { item with quantity := item.quantity + 1 }
      else item)) = totalItems prev + 1 := by
  induction prev with
  | nil => simp at hmem
  | cons a t ih =>
    simp only [List.map_cons, List.nodup_cons] at hnd
    by_cases hid : a.product_id = pid
    · have htail : ∀ x ∈ t, x.product_id ≠ pid := by
        intro x hx h
        apply hnd.1
        rw [hid]
        exact List.mem_map.mpr ⟨x, hx, h⟩
      have hmap : t.map (fun item =>
          if item.product_id == pid then { item with quantity := item.quantity + 1 }
          else item) = t := by
        conv_rhs => rw [← List.map_id t]
        refine List.map_congr_left fun x hx => ?_
        have : ¬ (x.product_id == pid) := by simpa using htail x hx
        simp [this]
      simp only [List.map_cons, hmap]
      rw [totalItems_cons, totalItems_cons]
      have : (a.product_id == pid) = true := by simpa using hid
      simp only [this, if_true]
      ring
    · have hmem' : pid ∈ t.map (fun i => i.product_id) := by
        rcases List.mem_cons.mp hmem with h | h
        · exact absurd h.symm hid
        · exact h
      have hbeq : (a.product_id == pid) = false := by simpa using hid
      simp only [List.map_cons, hbeq, Bool.false_eq_true, if_false]
      rw [totalItems_cons, totalItems_cons, ih hnd.2 hmem']
      ring

/-! ## Claim theorems for the basket operations -/

/-- C8 (amended): starting from the empty basket, after any sequence of
`addItem`, `removeItem`, `updateQuantity`, `incrementQuantity`,
`decrementQuantity` and `clearBasket` operations, every item in the basket has
positive quantity and no two items share the same `product_id`.  (The original
claim's bound "quantity at least 1" fails because `updateQuantity` accepts any
positive number, including fractions below 1.) -/
theorem c8_basket_invariant (ops : List BasketOp) :
    BasketWF (applyOps ops []) :=
  basketWF_applyOps ops [] basketWF_nil

/-- C8 counterexample: the operation sequence `addItem 1 "Milk"` then
`updateQuantity 1 (1/2)` is reachable from the empty basket and leaves an item
whose quantity is 1/2, which is not at least 1; so the claimed invariant
"every item has quantity at least 1" is false as stated. -/
theorem c8_counterexample :
    applyOps [BasketOp.add 1 "Milk", BasketOp.update 1 ((1 : Rat)/2)] [] =
      [⟨1, "Milk", (1 : Rat)/2⟩] ∧
    ¬ (1 ≤ ((1 : Rat)/2)) := by
  constructor
  · show updateQuantity 1 ((1 : Rat)/2) (addItem 1 "Milk" []) = _
    rw [show addItem 1 "Milk" [] = [⟨1, "Milk", 1⟩] from rfl]
    unfold updateQuantity
    rw [if_neg (by norm_num)]
    simp
  · norm_num

/-- C9: for every well-formed basket state and product id, `addItem` increases
`totalItems` by exactly one; when the id is present it increments that item's
quantity in place (all other items unchanged), and otherwise it appends a new
item with quantity 1. -/
theorem c9_addItem_adds_one (prev : List BasketItemWithName) (pid : Int) (name : String)
    (hnd : (prev.map (fun i => i.product_id)).Nodup) :
    totalItems (addItem pid name prev) = totalItems prev + 1 ∧
    (pid ∈ prev.map (fun i => i.product_id) →
      addItem pid name prev =
        prev.map (fun item =>
          if item.product_id = pid then { item with quantity := item.quantity + 1 }
          else item)) ∧
    (pid ∉ prev.map (fun i => i.product_id) →
      addItem pid name prev = prev ++ [⟨pid, name, 1⟩]) := by
  by_cases hmem : pid ∈ prev.map (fun i => i.product_id)
  · obtain ⟨x, hfind⟩ := Option.isSome_iff_exists.mp
      ((find_isSome_iff_mem_ids prev pid).mpr hmem)
    have haddItem : addItem pid name prev =
        prev.map (fun item =>
          if item.product_id == pid then { item with quantity := item.quantity + 1 }
          else item) := by
      unfold addItem
      rw [hfind]
    refine ⟨?_, fun _ => ?_, fun h => absurd hmem h⟩
    · rw [haddItem]
      exact totalItems_bump prev pid hnd hmem
    · rw [haddItem]
      refine List.map_congr_left fun a _ => ?_
      by_cases h : a.product_id = pid <;> simp [h]
  · have hfind : prev.find? (fun item => item.product_id == pid) = none := by
      rw [← Option.not_isSome_iff_eq_none]
      rw [find_isSome_iff_mem_ids]
      exact hmem
    have haddItem : addItem pid name prev = prev ++ [⟨pid, name, 1⟩] := by
      unfold addItem
      rw [hfind]
    refine ⟨?_, fun h => absurd h hmem, fun _ => haddItem⟩
    rw [haddItem, totalItems_append, totalItems_cons]
    show totalItems prev + ((1 : Rat) + totalItems []) = totalItems prev + 1
    rw [show totalItems [] = 0 from rfl]
    ring

/-- C9 witness: `addItem` on the concrete one-line basket `[⟨2, "Bread", 3⟩]`
with a fresh id 1. -/
theorem c9_addItem_adds_one_witness :
    totalItems (addItem 1 "Milk" [⟨2, "Bread", 3⟩]) = totalItems [⟨2, "Bread", 3⟩] + 1 ∧
    ((1 : Int) ∈ ([⟨2, "Bread", 3⟩] : List BasketItemWithName).map (fun i => i.product_id) →
      addItem 1 "Milk" [⟨2, "Bread", 3⟩] =
        ([⟨2, "Bread", 3⟩] : List BasketItemWithName).map (fun item =>
          if item.product_id = 1 then { item with quantity := item.quantity + 1 }
          else item)) ∧
    ((1 : Int) ∉ ([⟨2, "Bread", 3⟩] : List BasketItemWithName).map (fun i => i.product_id) →
      addItem 1 "Milk" [⟨2, "Bread", 3⟩] = [⟨2, "Bread", 3⟩] ++ [⟨1, "Milk", 1⟩]) :=
  c9_addItem_adds_one [⟨2, "Bread", 3⟩] 1 "Milk" (by decide)

/-- C10: a non-positive quantity removes the item: `updateQuantity pid q` with
`q ≤ 0` equals `removeItem pid`, and `decrementQuantity pid` on a well-formed
basket whose line for `pid` has quantity at most 1 removes that line entirely
(no line for `pid` remains). -/
theorem c10_nonpositive_removes (prev : List BasketItemWithName) (pid : Int) (q : Rat) :
    (q ≤ 0 → updateQuantity pid q prev = removeItem pid prev) ∧
    (∀ item ∈ prev, item.product_id = pid → item.quantity ≤ 1 →
      (prev.map (fun i => i.product_id)).Nodup →
      decrementQuantity pid prev = removeItem pid prev ∧
        pid ∉ (decrementQuantity pid prev).map (fun i => i.product_id)) := by
  constructor
  · intro h
    unfold updateQuantity
    rw [if_pos h]
  · intro item hmem hid hle hnd
    have hfind_some : (prev.find? (fun i => i.product_id == pid)).isSome := by
      rw [find_isSome_iff_mem_ids]
      exact List.mem_map.mpr ⟨item, hmem, hid⟩
    obtain ⟨x, hfind⟩ := Option.isSome_iff_exists.mp hfind_some
    have hx_mem : x ∈ prev := List.mem_of_find?_eq_some hfind
    have hx_id : x.product_id = pid := by
      have := List.find?_some hfind
      simpa using this
    have hx_eq : x = item :=
      List.inj_on_of_nodup_map hnd hx_mem hmem (by rw [hx_id, hid])
    have hdec : decrementQuantity pid prev =
        prev.filter (fun i => !(i.product_id == pid)) := by
      unfold decrementQuantity
      rw [hfind]
      show (if x.quantity ≤ 1 then prev.filter (fun i => !(i.product_id == pid))
        else prev.map (fun i =>
          if i.product_id == pid then { i with quantity := i.quantity - 1 } else i)) =
        prev.filter (fun i => !(i.product_id == pid))
      rw [if_pos (by rw [hx_eq]; exact hle)]
    refine ⟨hdec, ?_⟩
    rw [hdec]
    intro hin
    obtain ⟨y, hy, hyid⟩ := List.mem_map.mp hin
    have := List.of_mem_filter hy
    rw [hyid] at this
    simp at this

/-- C10 witness: the concrete basket `[⟨1, "Milk", 1⟩]`: `updateQuantity 1 0`
and `decrementQuantity 1` both remove the line. -/
theorem c10_nonpositive_removes_witness :
    updateQuantity 1 0 [⟨1, "Milk", 1⟩] = removeItem 1 [⟨1, "Milk", 1⟩] ∧
    decrementQuantity 1 [⟨1, "Milk", 1⟩] = removeItem 1 [⟨1, "Milk", 1⟩] ∧
    (1 : Int) ∉ (decrementQuantity 1 [⟨1, "Milk", 1⟩]).map (fun i => i.product_id) :=
  ⟨(c10_nonpositive_removes [⟨1, "Milk", 1⟩] 1 0).1 le_rfl,
   ((c10_nonpositive_removes [⟨1, "Milk", 1⟩] 1 0).2 ⟨1, "Milk", 1⟩
      (List.mem_singleton.mpr rfl) rfl le_rfl (by decide)).1,
   ((c10_nonpositive_removes [⟨1, "Milk", 1⟩] 1 0).2 ⟨1, "Milk", 1⟩
      (List.mem_singleton.mpr rfl) rfl le_rfl (by decide)).2⟩

/-! ## Basket store totals (`StaplesBasket` in the frontend components) -/

/-- `BasketStoreTotal` from `types/index.ts`: one store's total for the basket
comparison. -/
structure BasketStoreTotal where
  store_id : Int
  store_name : String
  store_slug : String
  total : String
  total_numeric : Rat
  items_available : Int
  items_missing : List String
deriving DecidableEq

/-- `BasketCompareResponse` from `types/index.ts`. -/
structure BasketCompareResponse where
  basket_totals : List BasketStoreTotal
  best_store : Option String
  best_total : Option String
  best_total_numeric : Option Rat
  savings_vs_worst : Option String
  savings_numeric : Option Rat
deriving DecidableEq

/-- JavaScript strict equality `s === t` between a string and a
string-or-null value: `null` compares unequal to every string. -/
def jsStrEqOrNull (s : String) : Option String → Bool
  | some t => s == t
  | none => false

/-- The `isBest` flag that `StaplesBasket` passes to `StoreTotalRow` for a
store-total row: `storeTotal.store_name === comparison.best_store`.
`StoreTotalRow` renders the "★ CHEAPEST" mark exactly when this flag is
true. -/
def storeRowIsBest (comparison : BasketCompareResponse)
    (storeTotal : BasketStoreTotal) : Bool :=
  jsStrEqOrNull storeTotal.store_name comparison.best_store

/-- The store-total rows of a comparison that carry the "★ CHEAPEST" mark. -/
def markedStoreRows (comparison : BasketCompareResponse) : List BasketStoreTotal :=
  comparison.basket_totals.filter (storeRowIsBest comparison)

/-- C3: the store-totals display marks as cheapest exactly those rows whose
`store_name` equals the response's `best_store`, and when `best_store` is
`null` no row is marked. -/
theorem c3_best_store_marking (comparison : BasketCompareResponse) :
    (∀ storeTotal,
      storeTotal ∈ markedStoreRows comparison ↔
        storeTotal ∈ comparison.basket_totals ∧
          comparison.best_store = some storeTotal.store_name) ∧
    (comparison.best_store = none → markedStoreRows comparison = []) := by
  constructor
  · intro storeTotal
    rw [markedStoreRows, List.mem_filter]
    unfold storeRowIsBest jsStrEqOrNull
    cases h : comparison.best_store with
    | none => simp
    | some name =>
      simp only [beq_iff_eq, Option.some.injEq]
      constructor
      · rintro ⟨hmem, hname⟩
        exact ⟨hmem, hname.symm⟩
      · rintro ⟨hmem, hname⟩
        exact ⟨hmem, hname.symm⟩
  · intro h
    unfold markedStoreRows storeRowIsBest jsStrEqOrNull
    rw [h]
    exact List.filter_false _

/-- C3 witness: a concrete two-store response whose `best_store` is
"Woolworths". -/
theorem c3_best_store_marking_witness :
    (∀ storeTotal,
      storeTotal ∈ markedStoreRows
          ⟨[⟨1, "Woolworths", "woolworths", "$10.00", 10, 2, []⟩,
            ⟨2, "Coles", "coles", "$12.00", 12, 2, []⟩],
           some "Woolworths", some "$10.00", some 10, some "$2.00", some 2⟩ ↔
        storeTotal ∈
            ([⟨1, "Woolworths", "woolworths", "$10.00", 10, 2, []⟩,
              ⟨2, "Coles", "coles", "$12.00", 12, 2, []⟩] :
              List BasketStoreTotal) ∧
          some "Woolworths" = some storeTotal.store_name) ∧
    ((some "Woolworths" : Option String) = none →
      markedStoreRows
          ⟨[⟨1, "Woolworths", "woolworths", "$10.00", 10, 2, []⟩,
            ⟨2, "Coles", "coles", "$12.00", 12, 2, []⟩],
           some "Woolworths", some "$10.00", some 10, some "$2.00", some 2⟩ = []) :=
  c3_best_store_marking
    ⟨[⟨1, "Woolworths", "woolworths", "$10.00", 10, 2, []⟩,
      ⟨2, "Coles", "coles", "$12.00", 12, 2, []⟩],
     some "Woolworths", some "$10.00", some 10, some "$2.00", some 2⟩

/-! ## Store-selection lists and store-colour tables of the UI -/

/-- One entry of the `STORES` constant of `StaplesPage.tsx`. -/
structure StoreInfo where
  slug : String
  name : String
  color : String
  textColor : String
  borderColor : String
  inactiveColor : String
deriving DecidableEq

/-- `STORES` from `StaplesPage.tsx`: the store-selection list of the Staples
page. -/
def staplesPageStores : List StoreInfo :=
  [⟨"woolworths", "Woolworths", "bg-green-600 hover:bg-green-700", "text-white",
    "border-green-600", "bg-green-50 text-green-700 hover:bg-green-100 border-green-200"⟩,
   ⟨"coles", "Coles", "bg-red-600 hover:bg-red-700", "text-white",
    "border-red-600", "bg-red-50 text-red-700 hover:bg-red-100 border-red-200"⟩,
   ⟨"aldi", "ALDI", "bg-blue-600 hover:bg-blue-700", "text-white",
    "border-blue-600", "bg-blue-50 text-blue-700 hover:bg-blue-100 border-blue-200"⟩,
   ⟨"iga", "IGA", "bg-orange-500 hover:bg-orange-600", "text-white",
    "border-orange-500", "bg-orange-50 text-orange-700 hover:bg-orange-100 border-orange-200"⟩]

/-- `STORE_COLORS` from `ComparePage.tsx`, as an ordered key-value list. -/
def comparePageStoreColors : List (String × String) :=
  [("woolworths", "bg-[#00A651]"), ("coles", "bg-[#E01A22]"),
   ("aldi", "bg-[#00448C]"), ("iga", "bg-[#FF6B00]")]

/-- `STORE_COLORS` from `components/Compare/CompareView.tsx`. -/
def compareViewStoreColors : List (String × String) :=
  [("woolworths", "bg-[#00A651]"), ("coles", "bg-[#E01A22]"),
   ("aldi", "bg-[#00448C]"), ("iga", "bg-[#FF6B00]")]

/-- `STORE_COLORS` from the `SpecialsV2` page. -/
def specialsV2StoreColors : List (String × String) :=
  [("woolworths", "bg-[#00A651]"), ("coles", "bg-[#E01A22]"),
   ("aldi", "bg-[#00448C]"), ("iga", "bg-[#FF6B00]")]

/-- `STORE_COLORS` from the `StaplesBasket` component: slug to
(bg, text, border) colour classes. -/
def staplesBasketStoreColors : List (String × String × String × String) :=
  [("woolworths", "bg-[#00A651]/10", "text-[#00A651]", "border-[#00A651]"),
   ("coles", "bg-[#E01A22]/10", "text-[#E01A22]", "border-[#E01A22]"),
   ("aldi", "bg-[#00448C]/10", "text-[#00448C]", "border-[#00448C]"),
   ("iga", "bg-[#FF6B00]/10", "text-[#FF6B00]", "border-[#FF6B00]")]

/-- `STORE_COLORS` from the `StapleCard` component: slug to
(bg, text, dot) colour classes. -/
def stapleCardStoreColors : List (String × String × String × String) :=
  [("woolworths", "bg-[#00A651]/10", "text-[#00A651]", "bg-[#00A651]"),
   ("coles", "bg-[#E01A22]/10", "text-[#E01A22]", "bg-[#E01A22]"),
   ("aldi", "bg-[#00448C]/10", "text-[#00448C]", "bg-[#00448C]"),
   ("iga", "bg-[#FF6B00]/10", "text-[#FF6B00]", "bg-[#FF6B00]")]

/-- `STORE_COLORS` from the `FreshFoodsSection` component. -/
def freshFoodsStoreColors : List (String × String) :=
  [("woolworths", "bg-[#00A651]"), ("coles", "bg-[#E01A22]"),
   ("aldi", "bg-[#00448C]"), ("iga", "bg-[#FF6B00]")]

/-- `STORE_TEXT_COLORS` from the `FreshFoodsSection` component. -/
def freshFoodsStoreTextColors : List (String × String) :=
  [("woolworths", "text-[#00A651]"), ("coles", "text-[#E01A22]"),
   ("aldi", "text-[#00448C]"), ("iga", "text-[#FF6B00]")]

/-- `STORE_COLORS` from the legacy `Specials.tsx` page (not reachable from the
router in `App.tsx`, which mounts `SpecialsV2` instead): it has no entry for
IGA. -/
def legacySpecialsStoreColors : List (String × String) :=
  [("woolworths", "bg-[#00A651]"), ("coles", "bg-[#E01A22]"),
   ("aldi", "bg-[#00448C]")]

/-- `STORE_COLORS` from the `SpecialCard` component (used only by the legacy
`Specials.tsx` page): slug to (bg, text, badge) classes; no IGA entry. -/
def specialCardStoreColors : List (String × String × String × String) :=
  [("woolworths", "bg-[#00A651]/5", "text-[#00A651]", "bg-[#00A651]"),
   ("coles", "bg-[#E01A22]/5", "text-[#E01A22]", "bg-[#E01A22]"),
   ("aldi", "bg-[#00448C]/5", "text-[#00448C]", "bg-[#00448C]")]

/-- `storeColors` from the `StoreBadge` component (used only by the legacy
`Specials.tsx` page): slug to (bg, text) classes; no IGA entry. -/
def storeBadgeStoreColors : List (String × String × String) :=
  [("woolworths", "bg-green-100", "text-green-700"),
   ("coles", "bg-red-100", "text-red-700"),
   ("aldi", "bg-blue-100", "text-blue-700")]

/-- The four supermarket chains named by the spec, by slug. -/
def fourChainSlugs : List String := ["woolworths", "coles", "aldi", "iga"]

/-- The four supermarket chains named by the spec, by display name. -/
def fourChainNames : List String := ["Woolworths", "Coles", "ALDI", "IGA"]

/-- C6 (amended): every store-selection list and store-colour table of the
pages the router actually mounts (StaplesPage, ComparePage, CompareView,
SpecialsV2, StaplesBasket, StapleCard, FreshFoodsSection) covers exactly the
four chains Woolworths, Coles, ALDI and IGA; the colour tables of the
unrouted legacy Specials page and of its SpecialCard and StoreBadge
components cover only the first three. -/
theorem c6_four_chains_amended :
    staplesPageStores.map (fun s => s.slug) = fourChainSlugs ∧
    staplesPageStores.map (fun s => s.name) = fourChainNames ∧
    comparePageStoreColors.map Prod.fst = fourChainSlugs ∧
    compareViewStoreColors.map Prod.fst = fourChainSlugs ∧
    specialsV2StoreColors.map Prod.fst = fourChainSlugs ∧
    staplesBasketStoreColors.map Prod.fst = fourChainSlugs ∧
    stapleCardStoreColors.map Prod.fst = fourChainSlugs ∧
    freshFoodsStoreColors.map Prod.fst = fourChainSlugs ∧
    freshFoodsStoreTextColors.map Prod.fst = fourChainSlugs := by
  refine ⟨rfl, rfl, rfl, rfl, rfl, rfl, rfl, rfl, rfl⟩

/-- C6 counterexample: the repository's UI also contains store-colour tables
(the legacy Specials page and its SpecialCard and StoreBadge components)
whose chain set is not the four chains: IGA is missing from each, so "every
store-colour table of the UI" covers the four chains is false as stated. -/
theorem c6_counterexample :
    legacySpecialsStoreColors.map Prod.fst ≠ fourChainSlugs ∧
    "iga" ∉ legacySpecialsStoreColors.map Prod.fst ∧
    specialCardStoreColors.map Prod.fst ≠ fourChainSlugs ∧
    "iga" ∉ specialCardStoreColors.map Prod.fst ∧
    storeBadgeStoreColors.map Prod.fst ≠ fourChainSlugs ∧
    "iga" ∉ storeBadgeStoreColors.map Prod.fst := by
  refine ⟨?_, ?_, ?_, ?_, ?_, ?_⟩ <;> decide

/-! ## Decimal printing of numbers (JS `String(n)` on integers) -/

/-- The ASCII digit character for `n < 10`. -/
def digitChar (n : Nat) : Char := Char.ofNat (48 + n)

/-- Fuel-driven most-significant-first decimal digit printer. -/
def natToDigitsAux : Nat → Nat → List Char → List Char
  | 0, _, acc => acc
  | fuel + 1, n, acc =>
    if n < 10 then digitChar n :: acc
    else natToDigitsAux fuel (n / 10) (digitChar (n % 10) :: acc)

/-- Decimal digits of a natural number, most significant first. -/
def natToDigits (n : Nat) : List Char := natToDigitsAux (n + 1) n []

/-- Decimal string of a natural number. -/
def natToString (n : Nat) : String := String.mk (natToDigits n)

/-- JS `String(n)` for an integer-valued number. -/
def intToString (i : Int) : String :=
  if i < 0 then "-" ++ natToString i.natAbs else natToString i.natAbs

/-! ## Query construction of `getSpecials` (`api/client.ts`) -/

/-- Uppercase hexadecimal digit for `n < 16`. -/
def hexDigitUpper (n : Nat) : Char :=
  if n < 10 then Char.ofNat (48 + n) else Char.ofNat (55 + n)

/-- UTF-8 bytes of a unicode code point. -/
def utf8Bytes (n : Nat) : List Nat :=
  if n < 0x80 then [n]
  else if n < 0x800 then [0xC0 + n / 0x40, 0x80 + n % 0x40]
  else if n < 0x10000 then
    [0xE0 + n / 0x1000, 0x80 + (n / 0x40) % 0x40, 0x80 + n % 0x40]
  else
    [0xF0 + n / 0x40000, 0x80 + (n / 0x1000) % 0x40, 0x80 + (n / 0x40) % 0x40,
     0x80 + n % 0x40]

/-- Characters that `URLSearchParams` leaves unencoded
(`application/x-www-form-urlencoded`). -/
def isUnreserved (c : Char) : Bool :=
  c.isAlphanum || c == '-' || c == '.' || c == '_' || c == '*'

/-- Percent-encoding of one character as `URLSearchParams` serialises it:
unreserved characters stand for themselves, a space becomes `+`, anything
else becomes `%XX` per UTF-8 byte. -/
def encodeChar (c : Char) : List Char :=
  if isUnreserved c then [c]
  else if c == ' ' then ['+']
  else (utf8Bytes c.toNat).foldr
    (fun b acc => '%' :: hexDigitUpper (b / 16) :: hexDigitUpper (b % 16) :: acc) []

/-- `URLSearchParams` encoding of a whole string. -/
def formEncode (s : String) : String :=
  String.mk (s.data.foldr (fun c acc => encodeChar c ++ acc) [])

/-- The optional parameters of `getSpecials` in `api/client.ts`; a missing
`params` object behaves as all fields absent. -/
structure GetSpecialsParams where
  store : Option String := none
  category : Option String := none
  min_discount : Option Int := none
  search : Option String := none
  sort : Option String := none
  page : Option Int := none
  limit : Option Int := none
deriving DecidableEq

/-- JS truthiness of an optional string: present and non-empty. -/
def truthyStr : Option String → Bool
  | some s => !(s == "")
  | none => false

/-- JS truthiness of an optional (integer) number: present and non-zero. -/
def truthyNum : Option Int → Bool
  | some n => !(n == 0)
  | none => false

/-- One `searchParams.set(key, value)` call guarded by `if (params?.key)`:
contributes a pair exactly when the optional string is truthy. -/
def optStrParam (key : String) : Option String → List (String × String)
  | some s => if s == "" then [] else [(key, s)]
  | none => []

/-- One `searchParams.set(key, String(value))` call guarded by
`if (params?.key)` for a numeric field. -/
def optNumParam (key : String) : Option Int → List (String × String)
  | some n => if n == 0 then [] else [(key, intToString n)]
  | none => []

/-- The key-value pairs accumulated by `getSpecials` into its
`URLSearchParams`, in the order the source sets them. -/
def getSpecialsSearchParams (p : GetSpecialsParams) : List (String × String) :=
  optStrParam "store" p.store ++ optStrParam "category" p.category ++
    optNumParam "min_discount" p.min_discount ++ optStrParam "search" p.search ++
    optStrParam "sort" p.sort ++ optNumParam "page" p.page ++
    optNumParam "limit" p.limit

/-- `searchParams.toString()`: `k=v` pairs joined by `&`, with values
percent-encoded. -/
def queryToString (l : List (String × String)) : String :=
  String.intercalate "&" (l.map (fun kv => formEncode kv.1 ++ "=" ++ formEncode kv.2))

/-- The URL (path and query) that `getSpecials` requests:
`/specials` followed by `?query` only when the query string is non-empty. -/
def getSpecialsUrl (p : GetSpecialsParams) : String :=
  "/specials" ++
    (if queryToString (getSpecialsSearchParams p) == "" then ""
     else "?" ++ queryToString (getSpecialsSearchParams p))

/-- The keys present in the query of `getSpecials`. -/
def getSpecialsQueryKeys (p : GetSpecialsParams) : List String :=
  (getSpecialsSearchParams p).map Prod.fst

lemma mem_ite_singleton (a k : String) (b : Bool) :
    (a ∈ (if b then [k] else [])) ↔ (b = true ∧ a = k) := by
  cases b <;> simp

lemma optStrParam_keys (key : String) (o : Option String) :
    (optStrParam key o).map Prod.fst = if truthyStr o then [key] else [] := by
  cases o with
  | none => rfl
  | some s =>
    by_cases h : s == "" <;> simp [optStrParam, truthyStr, h]

lemma optNumParam_keys (key : String) (o : Option Int) :
    (optNumParam key o).map Prod.fst = if truthyNum o then [key] else [] := by
  cases o with
  | none => rfl
  | some n =>
    by_cases h : n == 0 <;> simp [optNumParam, truthyNum, h]

lemma optStrParam_empty (key : String) (o : Option String)
    (h : truthyStr o = false) : optStrParam key o = [] := by
  cases o with
  | none => rfl
  | some s =>
    simp only [truthyStr, Bool.not_eq_false'] at h
    simp [optStrParam, h]

lemma optNumParam_empty (key : String) (o : Option Int)
    (h : truthyNum o = false) : optNumParam key o = [] := by
  cases o with
  | none => rfl
  | some n =>
    simp only [truthyNum, Bool.not_eq_false'] at h
    simp [optNumParam, h]

lemma truthyStr_iff (o : Option String) :
    truthyStr o = true ↔ ∃ s, o = some s ∧ s ≠ "" := by
  cases o with
  | none => simp [truthyStr]
  | some s => simp [truthyStr]

lemma truthyNum_iff (o : Option Int) :
    truthyNum o = true ↔ ∃ n, o = some n ∧ n ≠ 0 := by
  cases o with
  | none => simp [truthyNum]
  | some n => simp [truthyNum]

lemma getSpecialsQueryKeys_eq (p : GetSpecialsParams) :
    getSpecialsQueryKeys p =
      (if truthyStr p.store then ["store"] else []) ++
      (if truthyStr p.category then ["category"] else []) ++
      (if truthyNum p.min_discount then ["min_discount"] else []) ++
      (if truthyStr p.search then ["search"] else []) ++
      (if truthyStr p.sort then ["sort"] else []) ++
      (if truthyNum p.page then ["page"] else []) ++
      (if truthyNum p.limit then ["limit"] else []) := by
  unfold getSpecialsQueryKeys getSpecialsSearchParams
  simp only [List.map_append, optStrParam_keys, optNumParam_keys]

/-- C7: for every combination of optional parameters, the query built by
`getSpecials` contains a parameter for a filter exactly when that filter is
provided and truthy (non-empty string, or non-zero number — so
`min_discount = 0` and `page = 0` produce no parameter), and the request URL
is bare `/specials` when no filter is provided. -/
theorem c7_getSpecials_query (p : GetSpecialsParams) :
    ("store" ∈ getSpecialsQueryKeys p ↔ ∃ s, p.store = some s ∧ s ≠ "") ∧
    ("category" ∈ getSpecialsQueryKeys p ↔ ∃ s, p.category = some s ∧ s ≠ "") ∧
    ("min_discount" ∈ getSpecialsQueryKeys p ↔
      ∃ n, p.min_discount = some n ∧ n ≠ 0) ∧
    ("search" ∈ getSpecialsQueryKeys p ↔ ∃ s, p.search = some s ∧ s ≠ "") ∧
    ("sort" ∈ getSpecialsQueryKeys p ↔ ∃ s, p.sort = some s ∧ s ≠ "") ∧
    ("page" ∈ getSpecialsQueryKeys p ↔ ∃ n, p.page = some n ∧ n ≠ 0) ∧
    ("limit" ∈ getSpecialsQueryKeys p ↔ ∃ n, p.limit = some n ∧ n ≠ 0) ∧
    (truthyStr p.store = false → truthyStr p.category = false →
      truthyNum p.min_discount = false → truthyStr p.search = false →
      truthyStr p.sort = false → truthyNum p.page = false →
      truthyNum p.limit = false → getSpecialsUrl p = "/specials") := by
  have hkeys := getSpecialsQueryKeys_eq p
  refine ⟨?_, ?_, ?_, ?_, ?_, ?_, ?_, ?_⟩
  · rw [hkeys, ← truthyStr_iff]
    simp [mem_ite_singleton]
  · rw [hkeys, ← truthyStr_iff]
    simp [mem_ite_singleton]
  · rw [hkeys, ← truthyNum_iff]
    simp [mem_ite_singleton]
  · rw [hkeys, ← truthyStr_iff]
    simp [mem_ite_singleton]
  · rw [hkeys, ← truthyStr_iff]
    simp [mem_ite_singleton]
  · rw [hkeys, ← truthyNum_iff]
    simp [mem_ite_singleton]
  · rw [hkeys, ← truthyNum_iff]
    simp [mem_ite_singleton]
  · intro h1 h2 h3 h4 h5 h6 h7
    have e1 : optStrParam "store" p.store = [] := optStrParam_empty _ _ h1
    have e2 : optStrParam "category" p.category = [] := optStrParam_empty _ _ h2
    have e3 : optNumParam "min_discount" p.min_discount = [] := optNumParam_empty _ _ h3
    have e4 : optStrParam "search" p.search = [] := optStrParam_empty _ _ h4
    have e5 : optStrParam "sort" p.sort = [] := optStrParam_empty _ _ h5
    have e6 : optNumParam "page" p.page = [] := optNumParam_empty _ _ h6
    have e7 : optNumParam "limit" p.limit = [] := optNumParam_empty _ _ h7
    unfold getSpecialsUrl getSpecialsSearchParams
    rw [e1, e2, e3, e4, e5, e6, e7]
    rfl

/-- C7 witness: the concrete parameter set with `store = "coles"`,
`min_discount = 0` and `page = 2`: only `store` and `page` appear. -/
theorem c7_getSpecials_query_witness :
    (("store" ∈ getSpecialsQueryKeys
        ⟨some "coles", none, some 0, none, none, some 2, none⟩ ↔
      ∃ s, (some "coles" : Option String) = some s ∧ s ≠ "") ∧
     ("category" ∈ getSpecialsQueryKeys
        ⟨some "coles", none, some 0, none, none, some 2, none⟩ ↔
      ∃ s, (none : Option String) = some s ∧ s ≠ "") ∧
     ("min_discount" ∈ getSpecialsQueryKeys
        ⟨some "coles", none, some 0, none, none, some 2, none⟩ ↔
      ∃ n, (some 0 : Option Int) = some n ∧ n ≠ 0) ∧
     ("search" ∈ getSpecialsQueryKeys
        ⟨some "coles", none, some 0, none, none, some 2, none⟩ ↔
      ∃ s, (none : Option String) = some s ∧ s ≠ "") ∧
     ("sort" ∈ getSpecialsQueryKeys
        ⟨some "coles", none, some 0, none, none, some 2, none⟩ ↔
      ∃ s, (none : Option String) = some s ∧ s ≠ "") ∧
     ("page" ∈ getSpecialsQueryKeys
        ⟨some "coles", none, some 0, none, none, some 2, none⟩ ↔
      ∃ n, (some 2 : Option Int) = some n ∧ n ≠ 0) ∧
     ("limit" ∈ getSpecialsQueryKeys
        ⟨some "coles", none, some 0, none, none, some 2, none⟩ ↔
      ∃ n, (none : Option Int) = some n ∧ n ≠ 0) ∧
     (truthyStr (some "coles") = false → truthyStr none = false →
      truthyNum (some 0) = false → truthyStr none = false →
      truthyStr none = false → truthyNum (some 2) = false →
      truthyNum none = false →
      getSpecialsUrl ⟨some "coles", none, some 0, none, none, some 2, none⟩ =
        "/specials")) ∧
    getSpecialsUrl ⟨none, none, some 0, none, none, none, none⟩ = "/specials" :=
  ⟨c7_getSpecials_query ⟨some "coles", none, some 0, none, none, some 2, none⟩,
   (c7_getSpecials_query ⟨none, none, some 0, none, none, none, none⟩).2.2.2.2.2.2.2
     (by decide) (by decide) (by decide) (by decide) (by decide) (by decide)
     (by decide)⟩

/-! ## JS string primitives used by `ComparePage.tsx`

The frontend operates on JS strings; the model works on `String` through its
character list.  `toLowerCase` is modelled on the ASCII range (the only
case-folding exercised by store and brand names in this code), and `length` /
`slice` count characters where JS counts UTF-16 units; the two agree on all
basic-multilingual-plane text. -/

/-- ASCII lower-casing of one character. -/
def lowerChar (c : Char) : Char :=
  if 65 ≤ c.toNat ∧ c.toNat ≤ 90 then Char.ofNat (c.toNat + 32) else c

/-- JS `s.toLowerCase()` (ASCII model). -/
def jsToLowerCase (s : String) : String := String.mk (s.data.map lowerChar)

/-- Whitespace characters removed by JS `trim` (tab, LF, VT, FF, CR, space,
no-break space). -/
def isJsWhitespace (c : Char) : Bool :=
  c.toNat == 9 || c.toNat == 10 || c.toNat == 11 || c.toNat == 12 ||
    c.toNat == 13 || c.toNat == 32 || c.toNat == 160

/-- JS `s.trim()`. -/
def jsTrim (s : String) : String :=
  String.mk (((s.data.dropWhile isJsWhitespace).reverse.dropWhile
    isJsWhitespace).reverse)

/-- Does the first list start with the second? -/
def leadsWith : List Char → List Char → Bool
  | _, [] => true
  | [], _ :: _ => false
  | c :: cs, d :: ds => c == d && leadsWith cs ds

/-- JS `s.startsWith(p)`. -/
def jsStartsWith (s p : String) : Bool := leadsWith s.data p.data

/-- JS `s.slice(n)` for a non-negative index. -/
def jsSliceFrom (s : String) (n : Nat) : String := String.mk (s.data.drop n)

/-! ## Product grouping on the Compare page (`ComparePage.tsx`) -/

/-- `SpecialStorePrice` from `types/index.ts`: one store's listing of a
product. -/
structure SpecialStorePrice where
  special_id : Int
  store_id : Int
  store_name : String
  store_slug : String
  price : String
  was_price : Option String
  discount_percent : Option Rat
  unit_price : Option String
  image_url : Option String
  product_url : Option String
  valid_to : Option String
deriving DecidableEq

/-- `BrandMatchResult` from `types/index.ts`: a brand-match search result with
its per-store prices. -/
structure BrandMatchResult where
  product_name : String
  brand : Option String
  size : Option String
  stores : List SpecialStorePrice
  cheapest_store : Option String
  price_spread : Option String
  savings_potential : Option String
deriving DecidableEq

/-- `extractProductType` from `ComparePage.tsx`: remove the brand from the
front of the product name (case-insensitively) and trim; a `null` or empty
brand (both falsy in JS) leaves the name unchanged. -/
def extractProductType (name : String) (brand : Option String) : String :=
  match brand with
  | none => name
  | some b =>
    if b == "" then name
    else
      let brandLower := jsToLowerCase b
      let nameLower := jsToLowerCase name
      if jsStartsWith nameLower brandLower then jsTrim (jsSliceFrom name b.length)
      else name

/-- The grouping key `groupByProductType` computes for one result: the
extracted product type, with ` (size)` appended when `result.size` is truthy
(present and non-empty). -/
def groupKey (r : BrandMatchResult) : String :=
  let type := extractProductType r.product_name r.brand
  match r.size with
  | some s => if s == "" then type else type ++ " (" ++ s ++ ")"
  | none => type

/-- `groups[key].push(result)` with creation of a missing key, on the
insertion-ordered key-value list that models the JS object `groups`. -/
def insertResult (groups : List (String × List BrandMatchResult)) (key : String)
    (r : BrandMatchResult) : List (String × List BrandMatchResult) :=
  match groups with
  | [] => [(key, [r])]
  | (k, rs) :: rest =>
    if k == key then (k, rs ++ [r]) :: rest
    else (k, rs) :: insertResult rest key r

/-- The `groups` object after the `for` loop of `groupByProductType`. -/
def buildGroups (results : List BrandMatchResult) :
    List (String × List BrandMatchResult) :=
  results.foldl (fun groups r => insertResult groups (groupKey r) r) []

/-- `groupByProductType` from `ComparePage.tsx`: group the results by their
key, then order the groups by number of options, more options first (JS
`sort` is stable, as is `mergeSort`). -/
def groupByProductType (results : List BrandMatchResult) :
    List (String × List BrandMatchResult) :=
  (buildGroups results).mergeSort (fun a b => decide (b.2.length ≤ a.2.length))

lemma insertResult_keys_mem (g : List (String × List BrandMatchResult))
    (k : String) (r : BrandMatchResult) (h : k ∈ g.map Prod.fst) :
    (insertResult g k r).map Prod.fst = g.map Prod.fst := by
  induction g with
  | nil => simp at h
  | cons p t ih =>
    obtain ⟨k0, rs0⟩ := p
    by_cases hk : k0 == k
    · simp [insertResult, hk]
    · have hmem : k ∈ t.map Prod.fst := by
        simp only [List.map_cons, List.mem_cons] at h
        rcases h with h | h
        · exact absurd (by simpa using h.symm) hk
        · exact h
      simp [insertResult, hk, ih hmem]

lemma insertResult_keys_notmem (g : List (String × List BrandMatchResult))
    (k : String) (r : BrandMatchResult) (h : k ∉ g.map Prod.fst) :
    (insertResult g k r).map Prod.fst = g.map Prod.fst ++ [k] := by
  induction g with
  | nil => rfl
  | cons p t ih =>
    obtain ⟨k0, rs0⟩ := p
    simp only [List.map_cons, List.mem_cons] at h
    push_neg at h
    have hk : ¬ (k0 == k) := by
      simp only [beq_iff_eq]
      exact fun e => h.1 e.symm
    simp [insertResult, hk, ih h.2]

lemma insertResult_provenance (g : List (String × List BrandMatchResult))
    (k : String) (r : BrandMatchResult) :
    ∀ p ∈ insertResult g k r,
      p ∈ g ∨ (∃ rs, (k, rs) ∈ g ∧ p = (k, rs ++ [r])) ∨ p = (k, [r]) := by
  induction g with
  | nil =>
    intro p hp
    simp only [insertResult, List.mem_singleton] at hp
    exact Or.inr (Or.inr hp)
  | cons q t ih =>
    obtain ⟨k0, rs0⟩ := q
    intro p hp
    by_cases hk : k0 == k
    · have hk' : k0 = k := by simpa using hk
      subst hk'
      simp only [insertResult, beq_self_eq_true, if_true, List.mem_cons] at hp
      rcases hp with rfl | hp
      · exact Or.inr (Or.inl ⟨rs0, List.mem_cons_self _ _, rfl⟩)
      · exact Or.inl (List.mem_cons_of_mem _ hp)
    · have hbeq : (k0 == k) = false := by simpa using hk
      simp only [insertResult, hbeq, Bool.false_eq_true, if_false,
        List.mem_cons] at hp
      rcases hp with rfl | hp
      · exact Or.inl (List.mem_cons_self _ _)
      · rcases ih p hp with h | ⟨rs, hrs, h⟩ | h
        · exact Or.inl (List.mem_cons_of_mem _ h)
        · exact Or.inr (Or.inl ⟨rs, List.mem_cons_of_mem _ hrs, h⟩)
        · exact Or.inr (Or.inr h)

lemma insertResult_covers (g : List (String × List BrandMatchResult))
    (k : String) (r : BrandMatchResult) :
    ∃ rs, (k, rs) ∈ insertResult g k r ∧ r ∈ rs := by
  induction g with
  | nil => exact ⟨[r], List.mem_singleton.mpr rfl, List.mem_singleton.mpr rfl⟩
  | cons q t ih =>
    obtain ⟨k0, rs0⟩ := q
    by_cases hk : k0 == k
    · have hk' : k0 = k := by simpa using hk
      subst hk'
      exact ⟨rs0 ++ [r], by simp [insertResult], by simp⟩
    · obtain ⟨rs, hmem, hr⟩ := ih
      exact ⟨rs, by simp [insertResult, hk, hmem], hr⟩

lemma insertResult_covers_old (g : List (String × List BrandMatchResult))
    (k : String) (r : BrandMatchResult) :
    ∀ k' rs' x, (k', rs') ∈ g → x ∈ rs' →
      ∃ rs'', (k', rs'') ∈ insertResult g k r ∧ x ∈ rs'' := by
  induction g with
  | nil =>
    intro k' rs' x h
    simp at h
  | cons q t ih =>
    obtain ⟨k0, rs0⟩ := q
    intro k' rs' x hmem hx
    by_cases hk : k0 == k
    · have hk' : k0 = k := by simpa using hk
      subst hk'
      rcases List.mem_cons.mp hmem with heq | hmem'
      · obtain ⟨rfl, rfl⟩ := Prod.mk.injEq _ _ _ _ ▸ heq
        exact ⟨rs' ++ [r], by simp [insertResult], List.mem_append_left _ hx⟩
      · exact ⟨rs', by simp [insertResult, hmem'], hx⟩
    · rcases List.mem_cons.mp hmem with heq | hmem'
      · refine ⟨rs', ?_, hx⟩
        rw [heq] at hmem ⊢
        simp [insertResult, hk]
      · obtain ⟨rs'', h1, h2⟩ := ih k' rs' x hmem' hx
        exact ⟨rs'', by simp [insertResult, hk, h1], h2⟩

/-- The invariant of the `for` loop of `groupByProductType`: keys are
distinct; every group is non-empty and holds exactly the already-processed
results whose `groupKey` is that key; every processed result is in the group
of its key. -/
def GroupsInv (processed : List BrandMatchResult)
    (groups : List (String × List BrandMatchResult)) : Prop :=
  (groups.map Prod.fst).Nodup ∧
  (∀ p ∈ groups, p.2 ≠ [] ∧ ∀ x ∈ p.2, groupKey x = p.1 ∧ x ∈ processed) ∧
  (∀ x ∈ processed, ∃ rs, (groupKey x, rs) ∈ groups ∧ x ∈ rs)

lemma groupsInv_insert (processed : List BrandMatchResult)
    (groups : List (String × List BrandMatchResult)) (r : BrandMatchResult)
    (h : GroupsInv processed groups) :
    GroupsInv (processed ++ [r]) (insertResult groups (groupKey r) r) := by
  obtain ⟨hnd, hcons, hcov⟩ := h
  refine ⟨?_, ?_, ?_⟩
  · by_cases hk : groupKey r ∈ groups.map Prod.fst
    · rw [insertResult_keys_mem _ _ _ hk]
      exact hnd
    · rw [insertResult_keys_notmem _ _ _ hk]
      rw [List.nodup_append]
      refine ⟨hnd, List.nodup_singleton _, ?_⟩
      intro a ha hb
      simp only [List.mem_singleton] at hb
      subst hb
      exact hk ha
  · intro p hp
    rcases insertResult_provenance _ _ _ p hp with hin | ⟨rs, hrs, rfl⟩ | rfl
    · obtain ⟨hne, hmem⟩ := hcons p hin
      exact ⟨hne, fun x hx =>
        ⟨(hmem x hx).1, List.mem_append_left _ (hmem x hx).2⟩⟩
    · obtain ⟨_, hmem⟩ := hcons (groupKey r, rs) hrs
      refine ⟨by simp, ?_⟩
      intro x hx
      rcases List.mem_append.mp hx with hx | hx
      · exact ⟨(hmem x hx).1, List.mem_append_left _ (hmem x hx).2⟩
      · simp only [List.mem_singleton] at hx
        subst hx
        exact ⟨rfl, List.mem_append_right _ (List.mem_singleton.mpr rfl)⟩
    · refine ⟨by simp, ?_⟩
      intro x hx
      simp only [List.mem_singleton] at hx
      subst hx
      exact ⟨rfl, List.mem_append_right _ (List.mem_singleton.mpr rfl)⟩
  · intro x hx
    rcases List.mem_append.mp hx with hx | hx
    · obtain ⟨rs, hrs, hxrs⟩ := hcov x hx
      exact insertResult_covers_old groups (groupKey r) r (groupKey x) rs x hrs hxrs
    · simp only [List.mem_singleton] at hx
      subst hx
      exact insertResult_covers groups (groupKey x) x

lemma groupsInv_foldl (results : List BrandMatchResult) :
    ∀ (processed : List BrandMatchResult)
      (groups : List (String × List BrandMatchResult)),
      GroupsInv processed groups →
      GroupsInv (processed ++ results)
        (results.foldl (fun g r => insertResult g (groupKey r) r) groups) := by
  induction results with
  | nil =>
    intro processed groups h
    simpa using h
  | cons r t ih =>
    intro processed groups h
    have := ih (processed ++ [r]) _ (groupsInv_insert processed groups r h)
    simpa [List.append_assoc] using this

lemma groupsInv_buildGroups (results : List BrandMatchResult) :
    GroupsInv results (buildGroups results) := by
  have h0 : GroupsInv [] [] := ⟨List.nodup_nil, by simp, by simp⟩
  have := groupsInv_foldl results [] [] h0
  simpa [buildGroups] using this

lemma groupByProductType_perm (results : List BrandMatchResult) :
    (groupByProductType results).Perm (buildGroups results) :=
  List.mergeSort_perm (buildGroups results) _

/-- C1 (amended): `groupByProductType` places each brand-match result in
exactly one group — the group keyed by its `groupKey`, which is the extracted
product type with ` (size)` appended when a size is present; group keys are
pairwise distinct, every group is non-empty and contains only results whose
key is the group's key, and two results with the same size and the same
extracted product type always land in the same group.  (The converse of the
last point — same group implies same size and type — is false: a size-less
result whose type ends in " (…)" can collide with a sized result, see the
counterexample.) -/
theorem c1_grouping (results : List BrandMatchResult) :
    ((groupByProductType results).map Prod.fst).Nodup ∧
    (∀ r ∈ results,
      ∃ rs, (groupKey r, rs) ∈ groupByProductType results ∧ r ∈ rs) ∧
    (∀ p ∈ groupByProductType results, p.2 ≠ [] ∧
      ∀ x ∈ p.2, groupKey x = p.1 ∧ x ∈ results) ∧
    (∀ r₁ r₂ : BrandMatchResult, r₁.size = r₂.size →
      extractProductType r₁.product_name r₁.brand =
        extractProductType r₂.product_name r₂.brand →
      groupKey r₁ = groupKey r₂) := by
  obtain ⟨hnd, hcons, hcov⟩ := groupsInv_buildGroups results
  have hperm := groupByProductType_perm results
  refine ⟨?_, ?_, ?_, ?_⟩
  · exact (hperm.map Prod.fst).nodup_iff.mpr hnd
  · intro r hr
    obtain ⟨rs, hrs, hmem⟩ := hcov r hr
    exact ⟨rs, hperm.mem_iff.mpr hrs, hmem⟩
  · intro p hp
    exact hcons p (hperm.mem_iff.mp hp)
  · intro r₁ r₂ hsize htype
    unfold groupKey
    rw [hsize, htype]

/-- C1 witness: two results for "Cadbury Dairy Milk 180g" from different
brand spellings share a size and an extracted type, and the grouping puts the
first one in the group of its key. -/
theorem c1_grouping_witness :
    (groupKey ⟨"Cadbury Dairy Milk", some "Cadbury", some "180g", [], none, none, none⟩ =
      groupKey ⟨"CADBURY Dairy Milk", some "cadbury", some "180g", [], none, none, none⟩) ∧
    (∃ rs,
      (groupKey ⟨"Cadbury Dairy Milk", some "Cadbury", some "180g", [], none, none, none⟩, rs) ∈
        groupByProductType
          [⟨"Cadbury Dairy Milk", some "Cadbury", some "180g", [], none, none, none⟩,
           ⟨"CADBURY Dairy Milk", some "cadbury", some "180g", [], none, none, none⟩] ∧
      (⟨"Cadbury Dairy Milk", some "Cadbury", some "180g", [], none, none, none⟩ :
        BrandMatchResult) ∈ rs) :=
  ⟨by decide,
   (c1_grouping
      [⟨"Cadbury Dairy Milk", some "Cadbury", some "180g", [], none, none, none⟩,
       ⟨"CADBURY Dairy Milk", some "cadbury", some "180g", [], none, none, none⟩]).2.1
      ⟨"Cadbury Dairy Milk", some "Cadbury", some "180g", [], none, none, none⟩
      (List.mem_cons_self _ _)⟩

/-- C1 counterexample: the claim's "two results land in the same group if and
only if they have the same size and the same extracted product type" fails in
the only-if direction: the size-less result named "Milk (2L)" and the result
"Milk" of size "2L" have different sizes and different extracted types, yet
share the grouping key "Milk (2L)" and land in the same group. -/
theorem c1_counterexample :
    (groupKey ⟨"Milk (2L)", none, none, [], none, none, none⟩ =
      groupKey ⟨"Milk", none, some "2L", [], none, none, none⟩) ∧
    (⟨"Milk (2L)", none, none, [], none, none, none⟩ :
        BrandMatchResult).size ≠
      (⟨"Milk", none, some "2L", [], none, none, none⟩ : BrandMatchResult).size ∧
    extractProductType "Milk (2L)" none ≠ extractProductType "Milk" none ∧
    (∃ rs,
      ("Milk (2L)", rs) ∈ groupByProductType
        [⟨"Milk (2L)", none, none, [], none, none, none⟩,
         ⟨"Milk", none, some "2L", [], none, none, none⟩] ∧
      (⟨"Milk (2L)", none, none, [], none, none, none⟩ : BrandMatchResult) ∈ rs ∧
      (⟨"Milk", none, some "2L", [], none, none, none⟩ : BrandMatchResult) ∈ rs) := by
  refine ⟨by decide, by decide, by decide, ⟨[⟨"Milk (2L)", none, none, [], none, none, none⟩,
    ⟨"Milk", none, some "2L", [], none, none, none⟩], ?_, by decide, by decide⟩⟩
  have hb : buildGroups
      [⟨"Milk (2L)", none, none, [], none, none, none⟩,
       ⟨"Milk", none, some "2L", [], none, none, none⟩] =
      [("Milk (2L)",
        [⟨"Milk (2L)", none, none, [], none, none, none⟩,
         ⟨"Milk", none, some "2L", [], none, none, none⟩])] := by decide
  apply ((groupByProductType_perm
    [⟨"Milk (2L)", none, none, [], none, none, none⟩,
     ⟨"Milk", none, some "2L", [], none, none, none⟩]).mem_iff).mpr
  rw [hb]
  exact List.mem_singleton.mpr rfl

/-! ## Cheapest flagging in the comparison views
(`ProductCompareDetail` in `ComparePage.tsx`, `TypeComparisonView` in
`CompareView.tsx`) -/

/-- JS `s.replace('$', '')` on a character list: remove the first `$`
anywhere in the string (JS `replace` with a string pattern replaces only the
first occurrence). -/
def removeFirstDollar : List Char → List Char
  | [] => []
  | c :: cs => if c == '$' then cs else c :: removeFirstDollar cs

/-- JS `price.replace('$', '')`. -/
def jsReplaceFirstDollar (s : String) : String := String.mk (removeFirstDollar s.data)

/-- ASCII decimal digit test. -/
def isDigitChar (c : Char) : Bool := 48 ≤ c.toNat && c.toNat ≤ 57

/-- Numeric value of a digit character. -/
def digitVal (c : Char) : Nat := c.toNat - 48

/-- Value of a most-significant-first digit list. -/
def digitsVal (ds : List Char) : Nat := ds.foldl (fun a c => a * 10 + digitVal c) 0

/-- JS `parseFloat` on decimal input, with `none` for `NaN`: skip leading
whitespace, optional sign, digits with optional fraction, optional exponent;
trailing garbage is ignored, and a malformed exponent part is dropped (the
longest valid numeric prefix wins).  The special `Infinity` spellings, which
never occur in price strings, are not modelled.  The exact value is kept as a
rational, where JS rounds to the nearest double. -/
def jsParseFloat (s : String) : Option Rat :=
  let l := s.data.dropWhile isJsWhitespace
  let (sign, l1) : Rat × List Char :=
    match l with
    | c :: rest =>
      if c == '-' then (-1, rest) else if c == '+' then (1, rest) else (1, l)
    | [] => (1, [])
  let intDigits := l1.takeWhile isDigitChar
  let l2 := l1.dropWhile isDigitChar
  let (fracDigits, l3) : List Char × List Char :=
    match l2 with
    | c :: rest =>
      if c == '.' then (rest.takeWhile isDigitChar, rest.dropWhile isDigitChar)
      else ([], l2)
    | [] => ([], [])
  if intDigits.isEmpty && fracDigits.isEmpty then none
  else
    let mantissa : Rat :=
      (digitsVal intDigits : Rat) + (digitsVal fracDigits : Rat) / ((10 : Rat) ^ fracDigits.length)
    let exp : Int :=
      match l3 with
      | c :: rest =>
        if c == 'e' || c == 'E' then
          match rest with
          | d :: rest2 =>
            if d == '-' then
              (if (rest2.takeWhile isDigitChar).isEmpty then 0
               else -(digitsVal (rest2.takeWhile isDigitChar) : Int))
            else if d == '+' then
              (if (rest2.takeWhile isDigitChar).isEmpty then 0
               else (digitsVal (rest2.takeWhile isDigitChar) : Int))
            else
              (if (rest.takeWhile isDigitChar).isEmpty then 0
               else (digitsVal (rest.takeWhile isDigitChar) : Int))
          | [] => 0
        else 0
      | [] => 0
    some (sign * mantissa * (10 : Rat) ^ exp)

/-- `parseFloat(store.price.replace('$', ''))` as both comparison views
compute a store's numeric price. -/
def priceToNumber (price : String) : Option Rat :=
  jsParseFloat (jsReplaceFirstDollar price)

/-- `Math.min(...values)` over a non-empty spread: `none` plays `NaN`, which
propagates; the empty case (where JS would give `Infinity`) is mapped to
`none` and is never hit by the views, which spread a non-empty list. -/
def jsMinOpt : Option Rat → Option Rat → Option Rat
  | some a, some b => some (min a b)
  | _, _ => none

def jsMathMinList : List (Option Rat) → Option Rat
  | [] => none
  | [x] => x
  | x :: y :: rest => jsMinOpt x (jsMathMinList (y :: rest))

/-- `cheapestPrice` of `ProductCompareDetail` (and the same expression in
`TypeComparisonView` over `[reference_product, ...similar_products]`). -/
def cheapestPrice (stores : List SpecialStorePrice) : Option Rat :=
  jsMathMinList (stores.map (fun s => priceToNumber s.price))

/-- JS strict equality `===` between two numbers-or-`NaN`: `NaN` compares
unequal to everything, itself included. -/
def jsStrictEqNum : Option Rat → Option Rat → Bool
  | some a, some b => a == b
  | _, _ => false

/-- The `isCheapest` flag both views compute for a row:
`price === cheapestPrice`.  A row flagged true renders the BEST / CHEAPEST
badge. -/
def isCheapestIn (stores : List SpecialStorePrice) (s : SpecialStorePrice) : Bool :=
  jsStrictEqNum (priceToNumber s.price) (cheapestPrice stores)

lemma jsMathMinList_spec : ∀ (l : List (Option Rat)), l ≠ [] →
    (∀ x ∈ l, x.isSome) →
    ∃ m, jsMathMinList l = some m ∧ some m ∈ l ∧ ∀ q, some q ∈ l → m ≤ q := by
  intro l
  induction l with
  | nil => intro h; exact absurd rfl h
  | cons x xs ih =>
    intro _ hsome
    cases xs with
    | nil =>
      obtain ⟨a, rfl⟩ := Option.isSome_iff_exists.mp (hsome x (List.mem_singleton.mpr rfl))
      refine ⟨a, rfl, List.mem_singleton.mpr rfl, ?_⟩
      intro q hq
      simp only [List.mem_singleton, Option.some.injEq] at hq
      exact le_of_eq hq.symm
    | cons y rest =>
      obtain ⟨m, hm, hmem, hmin⟩ := ih (List.cons_ne_nil y rest)
        (fun z hz => hsome z (List.mem_cons_of_mem x hz))
      obtain ⟨a, ha⟩ := Option.isSome_iff_exists.mp (hsome x (List.mem_cons_self _ _))
      refine ⟨min a m, ?_, ?_, ?_⟩
      · show jsMinOpt x (jsMathMinList (y :: rest)) = some (min a m)
        rw [ha, hm]
        rfl
      · rcases le_total a m with h | h
        · rw [min_eq_left h, ← ha]
          exact List.mem_cons_self _ _
        · rw [min_eq_right h]
          exact List.mem_cons_of_mem x hmem
      · intro q hq
        rcases List.mem_cons.mp hq with hq | hq
        · rw [ha] at hq
          have haq : q = a := Option.some.inj hq
          exact haq ▸ min_le_left a m
        · exact le_trans (min_le_right _ _) (hmin q hq)

/-- C2: in a comparison view over a non-empty list of store prices that all
parse to numbers, a row is flagged BEST / CHEAPEST if and only if its numeric
price (the price string with its `$` removed, run through `parseFloat`) is
least among all listed stores; in particular at least one row is flagged and
every row tied at the minimum is flagged.  This is the flagging of
`ProductCompareDetail` (over `product.stores`) and of `TypeComparisonView`
(over `[reference_product, ...similar_products]`). -/
theorem c2_cheapest_flagging (stores : List SpecialStorePrice)
    (hne : stores ≠ [])
    (hparse : ∀ s ∈ stores, (priceToNumber s.price).isSome) :
    (∀ s ∈ stores,
      (isCheapestIn stores s = true ↔
        ∃ q, priceToNumber s.price = some q ∧
          ∀ t ∈ stores, ∀ qt, priceToNumber t.price = some qt → q ≤ qt)) ∧
    (∃ s ∈ stores, isCheapestIn stores s = true) ∧
    (∀ s ∈ stores, ∀ t ∈ stores, isCheapestIn stores s = true →
      priceToNumber t.price = priceToNumber s.price →
      isCheapestIn stores t = true) := by
  have hmapne : stores.map (fun s => priceToNumber s.price) ≠ [] := by
    intro h
    exact hne (List.map_eq_nil_iff.mp h)
  have hmapsome : ∀ x ∈ stores.map (fun s => priceToNumber s.price), x.isSome := by
    intro x hx
    obtain ⟨s, hs, rfl⟩ := List.mem_map.mp hx
    exact hparse s hs
  obtain ⟨m, hm, hmmem, hmmin⟩ :=
    jsMathMinList_spec (stores.map (fun s => priceToNumber s.price)) hmapne hmapsome
  have hcheap : cheapestPrice stores = some m := hm
  have hflag : ∀ s ∈ stores,
      (isCheapestIn stores s = true ↔ priceToNumber s.price = some m) := by
    intro s hs
    obtain ⟨qs, hqs⟩ := Option.isSome_iff_exists.mp (hparse s hs)
    rw [isCheapestIn, hcheap, hqs]
    simp [jsStrictEqNum]
  refine ⟨?_, ?_, ?_⟩
  · intro s hs
    obtain ⟨qs, hqs⟩ := Option.isSome_iff_exists.mp (hparse s hs)
    rw [hflag s hs, hqs]
    constructor
    · intro h
      obtain rfl : qs = m := Option.some.inj h
      refine ⟨qs, rfl, ?_⟩
      intro t ht qt hqt
      exact hmmin qt (by rw [← hqt]; exact List.mem_map.mpr ⟨t, ht, rfl⟩)
    · rintro ⟨q, hq, hle⟩
      obtain rfl : qs = q := Option.some.inj hq
      obtain ⟨t₀, ht₀, ht₀eq⟩ := List.mem_map.mp hmmem
      have h1 : qs ≤ m := hle t₀ ht₀ m ht₀eq
      have h2 : m ≤ qs :=
        hmmin qs (by rw [← hqs]; exact List.mem_map.mpr ⟨s, hs, rfl⟩)
      rw [le_antisymm h1 h2]
  · obtain ⟨t₀, ht₀, ht₀eq⟩ := List.mem_map.mp hmmem
    exact ⟨t₀, ht₀, (hflag t₀ ht₀).mpr ht₀eq⟩
  · intro s hs t ht hsflag heq
    rw [hflag t ht, heq]
    exact (hflag s hs).mp hsflag

/-- C2 witness: a concrete two-store comparison, "$4.50" at Woolworths and
"$6.00" at Coles. -/
theorem c2_cheapest_flagging_witness :
    (∀ s ∈ ([⟨1, 1, "Woolworths", "woolworths", "$4.50", none, none, none, none, none, none⟩,
        ⟨2, 2, "Coles", "coles", "$6.00", none, none, none, none, none, none⟩] :
        List SpecialStorePrice),
      (isCheapestIn
          [⟨1, 1, "Woolworths", "woolworths", "$4.50", none, none, none, none, none, none⟩,
           ⟨2, 2, "Coles", "coles", "$6.00", none, none, none, none, none, none⟩] s = true ↔
        ∃ q, priceToNumber s.price = some q ∧
          ∀ t ∈ ([⟨1, 1, "Woolworths", "woolworths", "$4.50", none, none, none, none, none, none⟩,
              ⟨2, 2, "Coles", "coles", "$6.00", none, none, none, none, none, none⟩] :
              List SpecialStorePrice),
            ∀ qt, priceToNumber t.price = some qt → q ≤ qt)) ∧
    (∃ s ∈ ([⟨1, 1, "Woolworths", "woolworths", "$4.50", none, none, none, none, none, none⟩,
        ⟨2, 2, "Coles", "coles", "$6.00", none, none, none, none, none, none⟩] :
        List SpecialStorePrice),
      isCheapestIn
        [⟨1, 1, "Woolworths", "woolworths", "$4.50", none, none, none, none, none, none⟩,
         ⟨2, 2, "Coles", "coles", "$6.00", none, none, none, none, none, none⟩] s = true) ∧
    (∀ s ∈ ([⟨1, 1, "Woolworths", "woolworths", "$4.50", none, none, none, none, none, none⟩,
        ⟨2, 2, "Coles", "coles", "$6.00", none, none, none, none, none, none⟩] :
        List SpecialStorePrice),
      ∀ t ∈ ([⟨1, 1, "Woolworths", "woolworths", "$4.50", none, none, none, none, none, none⟩,
          ⟨2, 2, "Coles", "coles", "$6.00", none, none, none, none, none, none⟩] :
          List SpecialStorePrice),
        isCheapestIn
          [⟨1, 1, "Woolworths", "woolworths", "$4.50", none, none, none, none, none, none⟩,
           ⟨2, 2, "Coles", "coles", "$6.00", none, none, none, none, none, none⟩] s = true →
        priceToNumber t.price = priceToNumber s.price →
        isCheapestIn
          [⟨1, 1, "Woolworths", "woolworths", "$4.50", none, none, none, none, none, none⟩,
           ⟨2, 2, "Coles", "coles", "$6.00", none, none, none, none, none, none⟩] t = true) :=
  c2_cheapest_flagging
    [⟨1, 1, "Woolworths", "woolworths", "$4.50", none, none, none, none, none, none⟩,
     ⟨2, 2, "Coles", "coles", "$6.00", none, none, none, none, none, none⟩]
    (by decide) (by decide)

/-! ## Infinite-scroll paging of the specials list
(`useSpecialsInfinite` in `api/hooks.ts`, rendered by `SpecialsV2`) -/

/-- `Special` from `types/index.ts`: one scraped listing. -/
structure Special where
  id : Int
  name : String
  brand : Option String
  size : Option String
  category : Option String
  price : String
  was_price : Option String
  discount_percent : Option Rat
  unit_price : Option String
  store_product_id : Option String
  product_url : Option String
  image_url : Option String
  valid_from : Option String
  valid_to : Option String
  store_id : Int
  store_name : Option String
  store_slug : Option String
  scraped_at : Option String
  created_at : Option String
deriving DecidableEq

/-- `SpecialsPageV1` from `api/hooks.ts`: one page of the v1 specials API
(page numbers are the positive integers, modelled as `Nat`). -/
structure SpecialsPageV1 where
  items : List Special
  total : Int
  page : Nat
  limit : Int
  has_more : Bool
deriving DecidableEq

/-- The page object `useSpecialsInfinite`'s `queryFn` returns after
normalising a v1 response. -/
structure NormalizedPage where
  items : List Special
  total : Int
  cursor : Option String
  has_more : Bool
  page : Nat
deriving DecidableEq

/-- The normalisation inside `queryFn`: items, total and `has_more` pass
through, `cursor` is the next page number as a string when there is more, and
`page` is echoed from the response (`data.page`, not the requested
`pageParam`). -/
def normalizePage (pageParam : Nat) (data : SpecialsPageV1) : NormalizedPage :=
  ⟨data.items, data.total,
   if data.has_more then some (natToString (pageParam + 1)) else none,
   data.has_more, data.page⟩

/-- `getNextPageParam` of `useSpecialsInfinite`:
`lastPage.has_more ? lastPage.page + 1 : undefined`. -/
def getNextPageParam (lastPage : NormalizedPage) : Option Nat :=
  if lastPage.has_more then some (lastPage.page + 1) else none

/-- `SpecialsFilters` from `api/hooks.ts`. -/
structure SpecialsFilters where
  store : Option String := none
  category : Option String := none
  category_id : Option Int := none
  min_discount : Option Int := none
  search : Option String := none
  sort : Option String := none
deriving DecidableEq

/-- The query parameters `useSpecialsInfinite`'s `queryFn` sets for one
request: the truthy filters, then always `page` and `limit = '50'`. -/
def specialsInfiniteRequestParams (filters : SpecialsFilters) (pageParam : Nat) :
    List (String × String) :=
  optStrParam "store" filters.store ++ optStrParam "category" filters.category ++
    optNumParam "category_id" filters.category_id ++
    optNumParam "min_discount" filters.min_discount ++
    optStrParam "search" filters.search ++ optStrParam "sort" filters.sort ++
    [("page", natToString pageParam), ("limit", "50")]

/-- The page parameter of the `n`-th request of the infinite query against a
fixed server: request 0 uses `initialPageParam = 1`, and each later request
exists exactly when `getNextPageParam` yields a page from the previous
response. -/
def requestSeq (server : Nat → SpecialsPageV1) : Nat → Option Nat
  | 0 => some 1
  | n + 1 =>
    match requestSeq server n with
    | some p => getNextPageParam (normalizePage p (server p))
    | none => none

/-- The pages react-query has accumulated after `n` steps, in fetch order. -/
def fetchedPages (server : Nat → SpecialsPageV1) : Nat → List NormalizedPage
  | 0 => []
  | n + 1 =>
    fetchedPages server n ++
      (match requestSeq server n with
       | some p => [normalizePage p (server p)]
       | none => [])

/-- The flattened list `SpecialsV2` renders:
`specialsData.pages.flatMap(page => page.items)`. -/
def renderedSpecials (server : Nat → SpecialsPageV1) (n : Nat) : List Special :=
  (fetchedPages server n).flatMap (fun page => page.items)

/-- A server that echoes the requested page number in the `page` field of the
response, as the v1 API does. -/
def EchoesPage (server : Nat → SpecialsPageV1) : Prop :=
  ∀ p, (server p).page = p

lemma requestSeq_succ_or (server : Nat → SpecialsPageV1) (hecho : EchoesPage server) :
    ∀ n, requestSeq server n = some (n + 1) ∨ requestSeq server n = none := by
  intro n
  induction n with
  | zero => exact Or.inl rfl
  | succ n ih =>
    rcases ih with h | h
    · have hval : requestSeq server (n + 1) =
          getNextPageParam (normalizePage (n + 1) (server (n + 1))) := by
        show (match requestSeq server n with
          | some p => getNextPageParam (normalizePage p (server p))
          | none => none) = _
        rw [h]
      by_cases hmore : (server (n + 1)).has_more
      · left
        rw [hval]
        unfold getNextPageParam normalizePage
        simp only [hmore, if_true]
        rw [hecho (n + 1)]
      · right
        rw [hval]
        unfold getNextPageParam normalizePage
        simp [hmore]
    · right
      show (match requestSeq server n with
        | some p => getNextPageParam (normalizePage p (server p))
        | none => none) = none
      rw [h]

lemma requestSeq_succ_iff (server : Nat → SpecialsPageV1) (hecho : EchoesPage server)
    (n : Nat) :
    requestSeq server (n + 1) = some (n + 2) ↔
      (requestSeq server n = some (n + 1) ∧ (server (n + 1)).has_more = true) := by
  constructor
  · intro h
    rcases requestSeq_succ_or server hecho n with hn | hn
    · refine ⟨hn, ?_⟩
      by_contra hmore
      have hmore' : (server (n + 1)).has_more = false := by
        simpa using hmore
      have : requestSeq server (n + 1) = none := by
        show (match requestSeq server n with
          | some p => getNextPageParam (normalizePage p (server p))
          | none => none) = none
        rw [hn]
        show getNextPageParam (normalizePage (n + 1) (server (n + 1))) = none
        unfold getNextPageParam normalizePage
        simp [hmore']
      rw [this] at h
      exact Option.noConfusion h
    · have : requestSeq server (n + 1) = none := by
        show (match requestSeq server n with
          | some p => getNextPageParam (normalizePage p (server p))
          | none => none) = none
        rw [hn]
      rw [this] at h
      exact Option.noConfusion h
  · rintro ⟨hn, hmore⟩
    show (match requestSeq server n with
      | some p => getNextPageParam (normalizePage p (server p))
      | none => none) = some (n + 2)
    rw [hn]
    show getNextPageParam (normalizePage (n + 1) (server (n + 1))) = some (n + 2)
    unfold getNextPageParam normalizePage
    simp only [hmore, if_true]
    rw [hecho (n + 1)]

lemma fetchedPages_shape (server : Nat → SpecialsPageV1) (hecho : EchoesPage server) :
    ∀ n, ∃ k, k ≤ n ∧
      fetchedPages server n =
        (List.range k).map (fun i => normalizePage (i + 1) (server (i + 1))) ∧
      (requestSeq server n = some (n + 1) → k = n) := by
  intro n
  induction n with
  | zero => exact ⟨0, le_refl 0, rfl, fun _ => rfl⟩
  | succ n ih =>
    obtain ⟨k, hk, hshape, hfull⟩ := ih
    rcases requestSeq_succ_or server hecho n with hn | hn
    · refine ⟨n + 1, le_refl _, ?_, fun _ => rfl⟩
      show fetchedPages server n ++ _ =
        (List.range (n + 1)).map (fun i => normalizePage (i + 1) (server (i + 1)))
      rw [hn, hshape, hfull hn, List.range_succ]
      simp
    · refine ⟨k, le_trans hk (Nat.le_succ n), ?_, ?_⟩
      · show fetchedPages server n ++ _ =
          (List.range k).map (fun i => normalizePage (i + 1) (server (i + 1)))
        rw [hn, hshape]
        simp
      · intro h
        rcases requestSeq_succ_or server hecho (n + 1) with h' | h'
        · have : requestSeq server (n + 1) = none := by
            show (match requestSeq server n with
              | some p => getNextPageParam (normalizePage p (server p))
              | none => none) = none
            rw [hn]
          rw [this] at h
          exact absurd h (Option.noConfusion)
        · rw [h'] at h
          exact absurd h (Option.noConfusion)

/-- C5: against a server whose responses echo the requested page number, the
specials infinite query starts at page 1 with limit 50, requests page `n + 1`
exactly when the response for page `n` had `has_more = true` (and stops
otherwise), and at every stage the rendered list is the concatenation, in
fetch order, of the `items` of the consecutively fetched pages `1..k`. -/
theorem c5_infinite_scroll (server : Nat → SpecialsPageV1)
    (hecho : EchoesPage server) (filters : SpecialsFilters) :
    (requestSeq server 0 = some 1) ∧
    (∀ p, ("page", natToString p) ∈ specialsInfiniteRequestParams filters p ∧
      ("limit", "50") ∈ specialsInfiniteRequestParams filters p) ∧
    (∀ n, requestSeq server (n + 1) = some (n + 2) ↔
      (requestSeq server n = some (n + 1) ∧ (server (n + 1)).has_more = true)) ∧
    (∀ n, requestSeq server n = some (n + 1) →
      (server (n + 1)).has_more = false → requestSeq server (n + 1) = none) ∧
    (∀ n, ∃ k, k ≤ n ∧
      renderedSpecials server n =
        (List.range k).flatMap (fun i => (server (i + 1)).items) ∧
      (requestSeq server n = some (n + 1) → k = n)) := by
  refine ⟨rfl, ?_, requestSeq_succ_iff server hecho, ?_, ?_⟩
  · intro p
    constructor
    · unfold specialsInfiniteRequestParams
      simp
    · unfold specialsInfiniteRequestParams
      simp
  · intro n hn hmore
    rcases requestSeq_succ_or server hecho (n + 1) with h | h
    · have htrue := ((requestSeq_succ_iff server hecho n).mp h).2
      rw [hmore] at htrue
      exact absurd htrue (by simp)
    · exact h
  · intro n
    obtain ⟨k, hk, hshape, hfull⟩ := fetchedPages_shape server hecho n
    refine ⟨k, hk, ?_, hfull⟩
    rw [renderedSpecials, hshape, List.flatMap_map]
    rfl

/-- C5 witness: the concrete three-page server (pages 1 and 2 have
`has_more`, page 3 stops) with empty filter set. -/
theorem c5_infinite_scroll_witness :
    (requestSeq (fun p => ⟨[], 120, p, 50, decide (p < 3)⟩) 0 = some 1) ∧
    (∀ p, ("page", natToString p) ∈
        specialsInfiniteRequestParams ⟨none, none, none, none, none, none⟩ p ∧
      ("limit", "50") ∈
        specialsInfiniteRequestParams ⟨none, none, none, none, none, none⟩ p) ∧
    (∀ n, requestSeq (fun p => ⟨[], 120, p, 50, decide (p < 3)⟩) (n + 1) = some (n + 2) ↔
      (requestSeq (fun p => ⟨[], 120, p, 50, decide (p < 3)⟩) n = some (n + 1) ∧
        ((fun p => (⟨[], 120, p, 50, decide (p < 3)⟩ : SpecialsPageV1)) (n + 1)).has_more = true)) ∧
    (∀ n, requestSeq (fun p => ⟨[], 120, p, 50, decide (p < 3)⟩) n = some (n + 1) →
      ((fun p => (⟨[], 120, p, 50, decide (p < 3)⟩ : SpecialsPageV1)) (n + 1)).has_more = false →
      requestSeq (fun p => ⟨[], 120, p, 50, decide (p < 3)⟩) (n + 1) = none) ∧
    (∀ n, ∃ k, k ≤ n ∧
      renderedSpecials (fun p => ⟨[], 120, p, 50, decide (p < 3)⟩) n =
        (List.range k).flatMap
          (fun i => ((fun p => (⟨[], 120, p, 50, decide (p < 3)⟩ : SpecialsPageV1)) (i + 1)).items) ∧
      (requestSeq (fun p => ⟨[], 120, p, 50, decide (p < 3)⟩) n = some (n + 1) → k = n)) :=
  c5_infinite_scroll (fun p => ⟨[], 120, p, 50, decide (p < 3)⟩)
    (fun _ => rfl) ⟨none, none, none, none, none, none⟩

/-! ## JSON values, printing and parsing

`useStaplesBasket` persists the basket with `JSON.stringify` and restores it
with `JSON.parse`; both builtins are modelled here over an explicit JSON value
type.  Numbers are kept as exact rationals; `JSON.stringify`'s number output
is modelled exactly on integers, which are the only numbers the basket
encoder emits. -/

def quoteChar : Char := Char.ofNat 34
def backslashChar : Char := Char.ofNat 92
def lbraceChar : Char := Char.ofNat 123
def rbraceChar : Char := Char.ofNat 125
def lbrackChar : Char := Char.ofNat 91
def rbrackChar : Char := Char.ofNat 93
def commaChar : Char := Char.ofNat 44
def colonChar : Char := Char.ofNat 58

lemma char_eq_of_toNat_eq (c d : Char) (h : c.toNat = d.toNat) : c = d := by
  apply Char.eq_of_val_eq
  unfold Char.toNat at h
  exact UInt32.eq_of_val_eq (Fin.eq_of_val_eq h)

/-- The slow reference form of the decimal printer, most significant digit
first. -/
def natDigitsSpec (n : Nat) : List Char :=
  if h : n < 10 then [digitChar n]
  else natDigitsSpec (n / 10) ++ [digitChar (n % 10)]
decreasing_by exact Nat.div_lt_self (by omega) (by omega)

lemma natToDigitsAux_eq_spec :
    ∀ (fuel n : Nat) (acc : List Char), n < 10 ^ fuel → 0 < fuel →
      natToDigitsAux fuel n acc = natDigitsSpec n ++ acc := by
  intro fuel
  induction fuel with
  | zero => intro n acc _ h0; exact absurd h0 (by omega)
  | succ fuel ih =>
    intro n acc hlt _
    by_cases h10 : n < 10
    · rw [natToDigitsAux, if_pos h10, natDigitsSpec, dif_pos h10]
      rfl
    · rw [natToDigitsAux, if_neg h10, natDigitsSpec, dif_neg h10]
      have hdiv : n / 10 < 10 ^ fuel := by
        have : n < 10 ^ (fuel + 1) := hlt
        rw [pow_succ] at this
        omega
      have hfuel : 0 < fuel := by
        by_contra h
        have : fuel = 0 := by omega
        subst this
        simp at hdiv
        omega
      rw [ih (n / 10) (digitChar (n % 10) :: acc) hdiv hfuel]
      simp

lemma natToDigits_eq_spec (n : Nat) : natToDigits n = natDigitsSpec n := by
  have hlt : n < 10 ^ (n + 1) :=
    lt_of_lt_of_le (Nat.lt_pow_self (by norm_num) n)
      (Nat.pow_le_pow_right (by norm_num) (Nat.le_succ n))
  rw [natToDigits, natToDigitsAux_eq_spec (n + 1) n [] hlt (Nat.succ_pos n)]
  simp

lemma toNat_ofNat_valid (n : Nat) (h : n < 55296) : (Char.ofNat n).toNat = n := by
  rw [Char.ofNat, dif_pos (Or.inl h)]
  rfl

lemma digitChar_toNat (d : Nat) (h : d < 10) : (digitChar d).toNat = 48 + d := by
  rw [digitChar, toNat_ofNat_valid (48 + d) (by omega)]

lemma isDigitChar_digitChar (d : Nat) (h : d < 10) :
    isDigitChar (digitChar d) = true := by
  rw [isDigitChar, digitChar, toNat_ofNat_valid (48 + d) (by omega)]
  simp
  omega

lemma digitVal_digitChar (d : Nat) (h : d < 10) : digitVal (digitChar d) = d := by
  rw [digitVal, digitChar_toNat d h]
  omega

lemma natDigitsSpec_ne_nil (n : Nat) : natDigitsSpec n ≠ [] := by
  rw [natDigitsSpec]
  by_cases h : n < 10
  · simp [h]
  · simp [h]

lemma natDigitsSpec_all_digits (n : Nat) :
    ∀ c ∈ natDigitsSpec n, isDigitChar c = true := by
  induction n using Nat.strong_induction_on with
  | _ n ih =>
    rw [natDigitsSpec]
    by_cases h : n < 10
    · simp only [h, dif_pos]
      intro c hc
      simp only [List.mem_singleton] at hc
      subst hc
      exact isDigitChar_digitChar n h
    · simp only [h, dif_neg]
      intro c hc
      rcases List.mem_append.mp hc with hc | hc
      · exact ih (n / 10) (Nat.div_lt_self (by omega) (by omega)) c hc
      · simp only [List.mem_singleton] at hc
        subst hc
        exact isDigitChar_digitChar (n % 10) (Nat.mod_lt n (by omega))

lemma digitsVal_from (ds : List Char) (init : Nat) :
    ds.foldl (fun a c => a * 10 + digitVal c) init =
      init * 10 ^ ds.length + digitsVal ds := by
  induction ds generalizing init with
  | nil => simp [digitsVal]
  | cons c t ih =>
    simp only [List.foldl_cons, List.length_cons, digitsVal]
    rw [ih (init * 10 + digitVal c), ih (0 * 10 + digitVal c)]
    ring

lemma digitsVal_natDigitsSpec (n : Nat) : digitsVal (natDigitsSpec n) = n := by
  induction n using Nat.strong_induction_on with
  | _ n ih =>
    rw [natDigitsSpec]
    by_cases h : n < 10
    · rw [dif_pos h]
      rw [digitsVal]
      simp [digitVal_digitChar n h]
    · rw [dif_neg h]
      rw [digitsVal, List.foldl_append]
      rw [digitsVal_from]
      have hdiv := ih (n / 10) (Nat.div_lt_self (by omega) (by omega))
      rw [digitsVal] at hdiv
      rw [hdiv]
      rw [show digitsVal [digitChar (n % 10)] = n % 10 by
        rw [digitsVal]
        simp [digitVal_digitChar (n % 10) (Nat.mod_lt n (by omega))]]
      simp only [List.length_singleton, pow_one]
      omega

lemma natToDigits_ne_nil (n : Nat) : natToDigits n ≠ [] := by
  rw [natToDigits_eq_spec]
  exact natDigitsSpec_ne_nil n

lemma natToDigits_all_digits (n : Nat) :
    ∀ c ∈ natToDigits n, isDigitChar c = true := by
  rw [natToDigits_eq_spec]
  exact natDigitsSpec_all_digits n

lemma digitsVal_natToDigits (n : Nat) : digitsVal (natToDigits n) = n := by
  rw [natToDigits_eq_spec]
  exact digitsVal_natDigitsSpec n

/-- A JSON value: the data model of `JSON.parse` / `JSON.stringify`. -/
inductive Json where
  | null : Json
  | bool (b : Bool) : Json
  | num (q : Rat) : Json
  | str (s : String) : Json
  | arr (elems : List Json) : Json
  | obj (members : List (String × Json)) : Json

/-- Lowercase hexadecimal digit for `n < 16`. -/
def hexDigitLower (n : Nat) : Char :=
  if n < 10 then Char.ofNat (48 + n) else Char.ofNat (87 + n)

/-- `JSON.stringify`'s escaping of one string character. -/
def escapeChar (c : Char) : List Char :=
  if c == quoteChar then [backslashChar, quoteChar]
  else if c == backslashChar then [backslashChar, backslashChar]
  else if c.toNat == 8 then [backslashChar, 'b']
  else if c.toNat == 9 then [backslashChar, 't']
  else if c.toNat == 10 then [backslashChar, 'n']
  else if c.toNat == 12 then [backslashChar, 'f']
  else if c.toNat == 13 then [backslashChar, 'r']
  else if c.toNat < 32 then
    [backslashChar, 'u', '0', '0', hexDigitLower (c.toNat / 16),
     hexDigitLower (c.toNat % 16)]
  else [c]

def escapeChars : List Char → List Char
  | [] => []
  | c :: cs => escapeChar c ++ escapeChars cs

/-- `JSON.stringify` of a string: quoted and escaped. -/
def printJsonString (s : String) : List Char :=
  quoteChar :: escapeChars s.data ++ [quoteChar]

/-- `String(i)` / `JSON.stringify` of an integer. -/
def printInt (i : Int) : List Char :=
  if i < 0 then '-' :: natToDigits i.natAbs else natToDigits i.natAbs

/-- `JSON.stringify`'s number output, modelled exactly for integer-valued
rationals (denominator 1) — the only numbers the basket encoder emits.  A
non-integral rational, which no modelled code produces, prints as its
numerator. -/
def printRat (q : Rat) : List Char := printInt q.num

mutual

/-- `JSON.stringify` (no indentation). -/
def printJson : Json → List Char
  | .null => "null".data
  | .bool true => "true".data
  | .bool false => "false".data
  | .num q => printRat q
  | .str s => printJsonString s
  | .arr l => lbrackChar :: printJsonElems l ++ [rbrackChar]
  | .obj ms => lbraceChar :: printJsonMembers ms ++ [rbraceChar]

/-- Array elements, comma-separated. -/
def printJsonElems : List Json → List Char
  | [] => []
  | [v] => printJson v
  | v :: vs => printJson v ++ commaChar :: printJsonElems vs

/-- Object members, comma-separated `"key":value` pairs. -/
def printJsonMembers : List (String × Json) → List Char
  | [] => []
  | [kv] => printJsonString kv.1 ++ colonChar :: printJson kv.2
  | kv :: ms =>
    printJsonString kv.1 ++ colonChar :: printJson kv.2 ++
      commaChar :: printJsonMembers ms

end

mutual

/-- Enough parser fuel for one printed value. -/
def jsonFuel : Json → Nat
  | .arr l => 1 + listFuel l
  | .obj ms => 1 + membersFuel ms
  | .num _ => 1
  | .str _ => 1
  | .bool _ => 1
  | .null => 1

def listFuel : List Json → Nat
  | [] => 0
  | v :: vs => 1 + jsonFuel v + listFuel vs

def membersFuel : List (String × Json) → Nat
  | [] => 0
  | kv :: ms => 1 + jsonFuel kv.2 + membersFuel ms

end

/-- JSON whitespace (space, tab, line feed, carriage return). -/
def isJsonWsChar (c : Char) : Bool :=
  c == ' ' || c.toNat == 9 || c.toNat == 10 || c.toNat == 13

def skipJsonWs (l : List Char) : List Char := l.dropWhile isJsonWsChar

def fromHexDigit (c : Char) : Option Nat :=
  if 48 ≤ c.toNat ∧ c.toNat ≤ 57 then some (c.toNat - 48)
  else if 65 ≤ c.toNat ∧ c.toNat ≤ 70 then some (c.toNat - 55)
  else if 97 ≤ c.toNat ∧ c.toNat ≤ 102 then some (c.toNat - 87)
  else none

/-- Parse the body of a JSON string after the opening quote, undoing the
escapes; returns the decoded characters and the input after the closing
quote.  The fuel only needs to cover the number of decoded characters. -/
def parseStringBody : Nat → List Char → Option (List Char × List Char)
  | 0, _ => none
  | fuel + 1, input =>
    match input with
    | [] => none
    | c :: rest =>
      if c == quoteChar then some ([], rest)
      else if c == backslashChar then
        match rest with
        | [] => none
        | e :: rest2 =>
          if e == quoteChar then
            (parseStringBody fuel rest2).map (fun r => (quoteChar :: r.1, r.2))
          else if e == backslashChar then
            (parseStringBody fuel rest2).map (fun r => (backslashChar :: r.1, r.2))
          else if e == '/' then
            (parseStringBody fuel rest2).map (fun r => ('/' :: r.1, r.2))
          else if e == 'b' then
            (parseStringBody fuel rest2).map (fun r => (Char.ofNat 8 :: r.1, r.2))
          else if e == 'f' then
            (parseStringBody fuel rest2).map (fun r => (Char.ofNat 12 :: r.1, r.2))
          else if e == 'n' then
            (parseStringBody fuel rest2).map (fun r => (Char.ofNat 10 :: r.1, r.2))
          else if e == 'r' then
            (parseStringBody fuel rest2).map (fun r => (Char.ofNat 13 :: r.1, r.2))
          else if e == 't' then
            (parseStringBody fuel rest2).map (fun r => (Char.ofNat 9 :: r.1, r.2))
          else if e == 'u' then
            match rest2 with
            | h1 :: h2 :: h3 :: h4 :: rest3 =>
              match fromHexDigit h1, fromHexDigit h2, fromHexDigit h3,
                  fromHexDigit h4 with
              | some a, some b, some x, some y =>
                (parseStringBody fuel rest3).map
                  (fun r => (Char.ofNat (4096 * a + 256 * b + 16 * x + y) :: r.1, r.2))
              | _, _, _, _ => none
            | _ => none
          else none
      else if c.toNat < 32 then none
      else (parseStringBody fuel rest).map (fun r => (c :: r.1, r.2))

def parseSign : List Char → Bool × List Char
  | c :: rest => if c == '-' then (true, rest) else (false, c :: rest)
  | [] => (false, [])

def parseDigitsPart (l : List Char) : List Char × List Char :=
  (l.takeWhile isDigitChar, l.dropWhile isDigitChar)

def parseFracPart : List Char → List Char × List Char
  | c :: rest =>
    if c == '.' then (rest.takeWhile isDigitChar, rest.dropWhile isDigitChar)
    else ([], c :: rest)
  | [] => ([], [])

def parseExpPart : List Char → Int × List Char
  | c :: rest =>
    if c == 'e' || c == 'E' then
      match rest with
      | d :: rest2 =>
        if d == '-' then
          (if (rest2.takeWhile isDigitChar).isEmpty then (0, c :: rest)
           else (-(digitsVal (rest2.takeWhile isDigitChar) : Int),
             rest2.dropWhile isDigitChar))
        else if d == '+' then
          (if (rest2.takeWhile isDigitChar).isEmpty then (0, c :: rest)
           else ((digitsVal (rest2.takeWhile isDigitChar) : Int),
             rest2.dropWhile isDigitChar))
        else
          (if (rest.takeWhile isDigitChar).isEmpty then (0, c :: rest)
           else ((digitsVal (rest.takeWhile isDigitChar) : Int),
             rest.dropWhile isDigitChar))
      | [] => (0, c :: rest)
    else (0, c :: rest)
  | [] => (0, [])

/-- Parse a JSON number: sign, integer digits, optional fraction, optional
exponent, valued exactly as a rational.  On a few malformed spellings that
strict JSON rejects (leading zeros, a dot or exponent marker without digits)
this model is lenient where `JSON.parse` throws; no such spelling is produced
by the printer. -/
def parseJsonNumber (l : List Char) : Option (Rat × List Char) :=
  match parseSign l with
  | (isNeg, l1) =>
    match parseDigitsPart l1 with
    | (intDigits, l2) =>
      if intDigits.isEmpty then none
      else
        match parseFracPart l2 with
        | (fracDigits, l3) =>
          match parseExpPart l3 with
          | (expVal, l4) =>
            some ((if isNeg then -1 else 1) *
              ((digitsVal intDigits : Rat) +
                (digitsVal fracDigits : Rat) / (10 : Rat) ^ fracDigits.length) *
              (10 : Rat) ^ expVal, l4)

mutual

/-- Parse one JSON value (no leading whitespace); fuel bounds the nesting
work, one unit per value or separator. -/
def parseValue : Nat → List Char → Option (Json × List Char)
  | 0, _ => none
  | fuel + 1, input =>
    match input with
    | [] => none
    | c :: rest =>
      if c == quoteChar then
        (parseStringBody (rest.length + 1) rest).map
          (fun r => (Json.str (String.mk r.1), r.2))
      else if c == lbrackChar then
        match skipJsonWs rest with
        | d :: rest2 =>
          if d == rbrackChar then some (Json.arr [], rest2)
          else (parseElems fuel (skipJsonWs rest)).map (fun r => (Json.arr r.1, r.2))
        | [] => none
      else if c == lbraceChar then
        match skipJsonWs rest with
        | d :: rest2 =>
          if d == rbraceChar then some (Json.obj [], rest2)
          else (parseMembers fuel (skipJsonWs rest)).map (fun r => (Json.obj r.1, r.2))
        | [] => none
      else if c == 'n' then
        match rest with
        | 'u' :: 'l' :: 'l' :: rest2 => some (Json.null, rest2)
        | _ => none
      else if c == 't' then
        match rest with
        | 'r' :: 'u' :: 'e' :: rest2 => some (Json.bool true, rest2)
        | _ => none
      else if c == 'f' then
        match rest with
        | 'a' :: 'l' :: 's' :: 'e' :: rest2 => some (Json.bool false, rest2)
        | _ => none
      else
        (parseJsonNumber (c :: rest)).map (fun r => (Json.num r.1, r.2))

/-- Parse the elements of a non-empty array, consuming the closing bracket. -/
def parseElems : Nat → List Char → Option (List Json × List Char)
  | 0, _ => none
  | fuel + 1, input =>
    match parseValue fuel input with
    | some (v, rest) =>
      (match skipJsonWs rest with
       | c :: rest2 =>
         if c == commaChar then
           match parseElems fuel (skipJsonWs rest2) with
           | some (vs, rest3) => some (v :: vs, rest3)
           | none => none
         else if c == rbrackChar then some ([v], rest2)
         else none
       | [] => none)
    | none => none

/-- Parse the members of a non-empty object, consuming the closing brace. -/
def parseMembers : Nat → List Char → Option (List (String × Json) × List Char)
  | 0, _ => none
  | fuel + 1, input =>
    match input with
    | c :: rest =>
      if c == quoteChar then
        match parseStringBody (rest.length + 1) rest with
        | some (key, rest1) =>
          (match skipJsonWs rest1 with
           | d :: rest2 =>
             if d == colonChar then
               match parseValue fuel (skipJsonWs rest2) with
               | some (v, rest3) =>
                 (match skipJsonWs rest3 with
                  | e :: rest4 =>
                    if e == commaChar then
                      match parseMembers fuel (skipJsonWs rest4) with
                      | some (ms, rest5) => some ((String.mk key, v) :: ms, rest5)
                      | none => none
                    else if e == rbraceChar then some ([(String.mk key, v)], rest4)
                    else none
                  | [] => none)
               | none => none
             else none
           | [] => none)
        | none => none
      else none
    | [] => none

end

/-- `JSON.parse`: skip whitespace, parse one value with ample fuel, and
require only trailing whitespace. -/
def parseJson (s : String) : Option Json :=
  match parseValue (2 * (skipJsonWs s.data).length + 2) (skipJsonWs s.data) with
  | some (v, rest) => if (skipJsonWs rest).isEmpty then some v else none
  | none => none

/-! ### The parser inverts the printer -/

lemma beq_eq_false_of_toNat_ne (c d : Char) (h : c.toNat ≠ d.toNat) :
    (c == d) = false := by
  rw [beq_eq_false_iff_ne]
  intro he
  exact h (congrArg Char.toNat he)

lemma takeWhile_append_of_all (p : Char → Bool) (xs ys : List Char)
    (hall : ∀ x ∈ xs, p x = true)
    (hhead : ∀ c, ys.head? = some c → p c = false) :
    (xs ++ ys).takeWhile p = xs ∧ (xs ++ ys).dropWhile p = ys := by
  induction xs with
  | nil =>
    simp only [List.nil_append]
    cases ys with
    | nil => exact ⟨rfl, rfl⟩
    | cons c t =>
      have hc := hhead c rfl
      constructor
      · simp [List.takeWhile_cons, hc]
      · simp [List.dropWhile_cons, hc]
  | cons x xs ih =>
    have hx := hall x (List.mem_cons_self _ _)
    obtain ⟨h1, h2⟩ := ih (fun a ha => hall a (List.mem_cons_of_mem _ ha))
    constructor
    · simp only [List.cons_append, List.takeWhile_cons, hx, if_true]
      rw [h1]
    · simp only [List.cons_append, List.dropWhile_cons, hx, if_true]
      rw [h2]

lemma fromHexDigit_hexDigitLower (x : Nat) (h : x < 16) :
    fromHexDigit (hexDigitLower x) = some x := by
  interval_cases x <;> decide

lemma parseStringBody_u_step (f : Nat) (h1 h2 h3 h4 : Char) (a b x y : Nat)
    (t : List Char)
    (e1 : fromHexDigit h1 = some a) (e2 : fromHexDigit h2 = some b)
    (e3 : fromHexDigit h3 = some x) (e4 : fromHexDigit h4 = some y) :
    parseStringBody (f + 1) (backslashChar :: 'u' :: h1 :: h2 :: h3 :: h4 :: t) =
      (parseStringBody f t).map
        (fun r => (Char.ofNat (4096 * a + 256 * b + 16 * x + y) :: r.1, r.2)) := by
  have hstep : parseStringBody (f + 1)
      (backslashChar :: 'u' :: h1 :: h2 :: h3 :: h4 :: t) =
      (match fromHexDigit h1, fromHexDigit h2, fromHexDigit h3, fromHexDigit h4 with
       | some a', some b', some x', some y' =>
         (parseStringBody f t).map
           (fun r => (Char.ofNat (4096 * a' + 256 * b' + 16 * x' + y') :: r.1, r.2))
       | _, _, _, _ => none) := rfl
  rw [hstep, e1, e2, e3, e4]

lemma parseStringBody_plain_step (f : Nat) (c : Char) (t : List Char)
    (hq : (c == quoteChar) = false) (hb : (c == backslashChar) = false)
    (h32 : ¬ c.toNat < 32) :
    parseStringBody (f + 1) (c :: t) =
      (parseStringBody f t).map (fun r => (c :: r.1, r.2)) := by
  simp only [parseStringBody, hq, hb, Bool.false_eq_true, if_false]
  rw [if_neg h32]

lemma parseStringBody_escape (rest : List Char) :
    ∀ (s : List Char) (fuel : Nat), s.length < fuel →
      parseStringBody fuel (escapeChars s ++ quoteChar :: rest) = some (s, rest) := by
  intro s
  induction s with
  | nil =>
    intro fuel hfuel
    cases fuel with
    | zero => omega
    | succ f => rfl
  | cons c s' ih =>
    intro fuel hfuel
    cases fuel with
    | zero => simp at hfuel
    | succ f =>
      have hlen : s'.length < f := by
        simp only [List.length_cons] at hfuel
        omega
      by_cases hq : c == quoteChar
      · have hc : c = quoteChar := by simpa using hq
        subst hc
        have hstep : parseStringBody (f + 1)
            (escapeChars (quoteChar :: s') ++ quoteChar :: rest) =
            (parseStringBody f (escapeChars s' ++ quoteChar :: rest)).map
              (fun r => (quoteChar :: r.1, r.2)) := rfl
        rw [hstep, ih f hlen]
        rfl
      · by_cases hb : c == backslashChar
        · have hc : c = backslashChar := by simpa using hb
          subst hc
          have hstep : parseStringBody (f + 1)
              (escapeChars (backslashChar :: s') ++ quoteChar :: rest) =
              (parseStringBody f (escapeChars s' ++ quoteChar :: rest)).map
                (fun r => (backslashChar :: r.1, r.2)) := rfl
          rw [hstep, ih f hlen]
          rfl
        · by_cases h8 : c.toNat == 8
          · have hc : c = Char.ofNat 8 := char_eq_of_toNat_eq _ _
              (by rw [toNat_ofNat_valid 8 (by omega)]; simpa using h8)
            subst hc
            have hstep : parseStringBody (f + 1)
                (escapeChars (Char.ofNat 8 :: s') ++ quoteChar :: rest) =
                (parseStringBody f (escapeChars s' ++ quoteChar :: rest)).map
                  (fun r => (Char.ofNat 8 :: r.1, r.2)) := rfl
            rw [hstep, ih f hlen]
            rfl
          · by_cases h9 : c.toNat == 9
            · have hc : c = Char.ofNat 9 := char_eq_of_toNat_eq _ _
                (by rw [toNat_ofNat_valid 9 (by omega)]; simpa using h9)
              subst hc
              have hstep : parseStringBody (f + 1)
                  (escapeChars (Char.ofNat 9 :: s') ++ quoteChar :: rest) =
                  (parseStringBody f (escapeChars s' ++ quoteChar :: rest)).map
                    (fun r => (Char.ofNat 9 :: r.1, r.2)) := rfl
              rw [hstep, ih f hlen]
              rfl
            · by_cases h10 : c.toNat == 10
              · have hc : c = Char.ofNat 10 := char_eq_of_toNat_eq _ _
                  (by rw [toNat_ofNat_valid 10 (by omega)]; simpa using h10)
                subst hc
                have hstep : parseStringBody (f + 1)
                    (escapeChars (Char.ofNat 10 :: s') ++ quoteChar :: rest) =
                    (parseStringBody f (escapeChars s' ++ quoteChar :: rest)).map
                      (fun r => (Char.ofNat 10 :: r.1, r.2)) := rfl
                rw [hstep, ih f hlen]
                rfl
              · by_cases h12 : c.toNat == 12
                · have hc : c = Char.ofNat 12 := char_eq_of_toNat_eq _ _
                    (by rw [toNat_ofNat_valid 12 (by omega)]; simpa using h12)
                  subst hc
                  have hstep : parseStringBody (f + 1)
                      (escapeChars (Char.ofNat 12 :: s') ++ quoteChar :: rest) =
                      (parseStringBody f (escapeChars s' ++ quoteChar :: rest)).map
                        (fun r => (Char.ofNat 12 :: r.1, r.2)) := rfl
                  rw [hstep, ih f hlen]
                  rfl
                · by_cases h13 : c.toNat == 13
                  · have hc : c = Char.ofNat 13 := char_eq_of_toNat_eq _ _
                      (by rw [toNat_ofNat_valid 13 (by omega)]; simpa using h13)
                    subst hc
                    have hstep : parseStringBody (f + 1)
                        (escapeChars (Char.ofNat 13 :: s') ++ quoteChar :: rest) =
                        (parseStringBody f (escapeChars s' ++ quoteChar :: rest)).map
                          (fun r => (Char.ofNat 13 :: r.1, r.2)) := rfl
                    rw [hstep, ih f hlen]
                    rfl
                  · have hq' : (c == quoteChar) = false := by simpa using hq
                    have hb' : (c == backslashChar) = false := by simpa using hb
                    have h8' : (c.toNat == 8) = false := by simpa using h8
                    have h9' : (c.toNat == 9) = false := by simpa using h9
                    have h10' : (c.toNat == 10) = false := by simpa using h10
                    have h12' : (c.toNat == 12) = false := by simpa using h12
                    have h13' : (c.toNat == 13) = false := by simpa using h13
                    by_cases h32 : c.toNat < 32
                    · have hesc : escapeChar c =
                          [backslashChar, 'u', '0', '0',
                           hexDigitLower (c.toNat / 16), hexDigitLower (c.toNat % 16)] := by
                        simp only [escapeChar, hq', hb', h8', h9', h10', h12', h13',
                          Bool.false_eq_true, if_false]
                        rw [if_pos h32]
                      have hinput : escapeChars (c :: s') ++ quoteChar :: rest =
                          backslashChar :: 'u' :: '0' :: '0' ::
                            hexDigitLower (c.toNat / 16) :: hexDigitLower (c.toNat % 16) ::
                            (escapeChars s' ++ quoteChar :: rest) := by
                        show escapeChar c ++ escapeChars s' ++ quoteChar :: rest = _
                        rw [hesc]
                        rfl
                      rw [hinput]
                      rw [parseStringBody_u_step f _ _ _ _ 0 0 (c.toNat / 16) (c.toNat % 16) _
                        (by decide) (by decide)
                        (fromHexDigit_hexDigitLower (c.toNat / 16) (by omega))
                        (fromHexDigit_hexDigitLower (c.toNat % 16) (by omega))]
                      rw [ih f hlen]
                      show some (Char.ofNat (4096 * 0 + 256 * 0 + 16 * (c.toNat / 16) + c.toNat % 16) :: s', rest) = _
                      rw [show 4096 * 0 + 256 * 0 + 16 * (c.toNat / 16) + c.toNat % 16 = c.toNat by omega]
                      rw [Char.ofNat_toNat]
                    · have hesc : escapeChar c = [c] := by
                        simp only [escapeChar, hq', hb', h8', h9', h10', h12', h13',
                          Bool.false_eq_true, if_false]
                        rw [if_neg h32]
                      have hinput : escapeChars (c :: s') ++ quoteChar :: rest =
                          c :: (escapeChars s' ++ quoteChar :: rest) := by
                        show escapeChar c ++ escapeChars s' ++ quoteChar :: rest = _
                        rw [hesc]
                        rfl
                      rw [hinput, parseStringBody_plain_step f c _ hq' hb' h32, ih f hlen]
                      rfl

/-- The head condition under which a number parse cannot run into the
following input: the next character, if any, is not a digit, a decimal point
or an exponent marker. -/
def NumBoundary (rest : List Char) : Prop :=
  ∀ c, rest.head? = some c →
    isDigitChar c = false ∧ (c == '.') = false ∧ (c == 'e') = false ∧
      (c == 'E') = false

lemma isDigitChar_range (c : Char) (h : isDigitChar c = true) :
    48 ≤ c.toNat ∧ c.toNat ≤ 57 := by
  rw [isDigitChar] at h
  simp only [Bool.and_eq_true, decide_eq_true_eq] at h
  exact h

lemma parseDigitsPart_split (ds rest : List Char)
    (hall : ∀ x ∈ ds, isDigitChar x = true)
    (hhead : ∀ c, rest.head? = some c → isDigitChar c = false) :
    parseDigitsPart (ds ++ rest) = (ds, rest) := by
  obtain ⟨h1, h2⟩ := takeWhile_append_of_all isDigitChar ds rest hall hhead
  rw [parseDigitsPart, h1, h2]

lemma parseFracPart_id (rest : List Char) (hb : NumBoundary rest) :
    parseFracPart rest = ([], rest) := by
  cases rest with
  | nil => rfl
  | cons c t =>
    have hdot := (hb c rfl).2.1
    rw [parseFracPart, hdot]
    rfl

lemma parseExpPart_id (rest : List Char) (hb : NumBoundary rest) :
    parseExpPart rest = (0, rest) := by
  cases rest with
  | nil => rfl
  | cons c t =>
    have he := (hb c rfl).2.2.1
    have hE := (hb c rfl).2.2.2
    rw [parseExpPart.eq_def]
    simp only [he, hE, Bool.or_self, Bool.false_eq_true, if_false]

lemma natToDigits_isEmpty_false (n : Nat) : (natToDigits n).isEmpty = false := by
  cases h : natToDigits n with
  | nil => exact absurd h (natToDigits_ne_nil n)
  | cons a t => rfl

lemma parseJsonNumber_printInt (i : Int) (rest : List Char) (hb : NumBoundary rest) :
    parseJsonNumber (printInt i ++ rest) = some ((i : Rat), rest) := by
  have hall := natToDigits_all_digits i.natAbs
  have hdigits : parseDigitsPart (natToDigits i.natAbs ++ rest) =
      (natToDigits i.natAbs, rest) :=
    parseDigitsPart_split _ rest hall (fun c h => (hb c h).1)
  have hempty := natToDigits_isEmpty_false i.natAbs
  have hfrac := parseFracPart_id rest hb
  have hexp := parseExpPart_id rest hb
  by_cases hneg : i < 0
  · have hprint : printInt i ++ rest = '-' :: (natToDigits i.natAbs ++ rest) := by
      rw [printInt, if_pos hneg]
      rfl
    rw [hprint]
    have hsign : parseSign ('-' :: (natToDigits i.natAbs ++ rest)) =
        (true, natToDigits i.natAbs ++ rest) := rfl
    rw [parseJsonNumber, hsign]
    dsimp only
    rw [hdigits]
    dsimp only
    rw [hempty]
    simp only [Bool.false_eq_true, if_false]
    rw [hfrac]
    dsimp only
    rw [hexp]
    dsimp only
    congr 1
    rw [Prod.mk.injEq]
    refine ⟨?_, rfl⟩
    rw [digitsVal_natToDigits]
    have : (i.natAbs : Rat) = -(i : Rat) := by
      rw [Int.cast_natAbs, Int.cast_abs]
      exact abs_of_nonpos (by exact_mod_cast le_of_lt hneg)
    rw [show digitsVal ([] : List Char) = 0 from rfl]
    push_cast
    rw [this]
    simp
  · have hprint : printInt i ++ rest = natToDigits i.natAbs ++ rest := by
      rw [printInt, if_neg hneg]
    rw [hprint]
    have hsign : parseSign (natToDigits i.natAbs ++ rest) =
        (false, natToDigits i.natAbs ++ rest) := by
      cases hnd : natToDigits i.natAbs with
      | nil => exact absurd hnd (natToDigits_ne_nil _)
      | cons c t =>
        have hc : isDigitChar c = true := by
          apply hall
          rw [hnd]
          exact List.mem_cons_self _ _
        have hrange := isDigitChar_range c hc
        have hminus : (c == '-') = false :=
          beq_eq_false_of_toNat_ne c '-' (by
            have : ('-').toNat = 45 := rfl
            omega)
        rw [List.cons_append, parseSign, hminus]
        rfl
    rw [parseJsonNumber, hsign]
    dsimp only
    rw [hdigits]
    dsimp only
    rw [hempty]
    simp only [Bool.false_eq_true, if_false]
    rw [hfrac]
    dsimp only
    rw [hexp]
    dsimp only
    congr 1
    rw [Prod.mk.injEq]
    refine ⟨?_, rfl⟩
    rw [digitsVal_natToDigits]
    have : (i.natAbs : Rat) = (i : Rat) := by
      rw [Int.cast_natAbs, Int.cast_abs]
      exact abs_of_nonneg (by exact_mod_cast not_lt.mp hneg)
    rw [show digitsVal ([] : List Char) = 0 from rfl]
    push_cast
    rw [this]
    simp

/-- The integer-valued JSON values: the image of the basket encoder, on which
the printed number spellings are exact. -/
inductive IntegralJson : Json → Prop where
  | null : IntegralJson .null
  | bool (b : Bool) : IntegralJson (.bool b)
  | num (q : Rat) (h : q.den = 1) : IntegralJson (.num q)
  | str (s : String) : IntegralJson (.str s)
  | arr (l : List Json) (h : ∀ v ∈ l, IntegralJson v) : IntegralJson (.arr l)
  | obj (ms : List (String × Json)) (h : ∀ kv ∈ ms, IntegralJson kv.2) :
      IntegralJson (.obj ms)

lemma skipJsonWs_cons (c : Char) (cs : List Char) (h : isJsonWsChar c = false) :
    skipJsonWs (c :: cs) = c :: cs := by
  rw [skipJsonWs, List.dropWhile_cons, h]
  rfl

lemma isJsonWsChar_of_digit (c : Char) (h : isDigitChar c = true) :
    isJsonWsChar c = false := by
  obtain ⟨h1, h2⟩ := isDigitChar_range c h
  rw [isJsonWsChar]
  rw [beq_eq_false_of_toNat_ne c ' ' (by
    rw [show (' ').toNat = 32 from rfl]; omega)]
  have h9 : (c.toNat == 9) = false := by
    rw [beq_eq_false_iff_ne]; omega
  have h10 : (c.toNat == 10) = false := by
    rw [beq_eq_false_iff_ne]; omega
  have h13 : (c.toNat == 13) = false := by
    rw [beq_eq_false_iff_ne]; omega
  rw [h9, h10, h13]
  rfl

lemma skipJsonWs_printInt (i : Int) (rest : List Char) :
    skipJsonWs (printInt i ++ rest) = printInt i ++ rest := by
  by_cases hneg : i < 0
  · rw [printInt, if_pos hneg, List.cons_append]
    exact skipJsonWs_cons '-' _ (by decide)
  · rw [printInt, if_neg hneg]
    cases hnd : natToDigits i.natAbs with
    | nil => exact absurd hnd (natToDigits_ne_nil _)
    | cons c t =>
      have hc : isDigitChar c = true := by
        apply natToDigits_all_digits
        rw [hnd]
        exact List.mem_cons_self _ _
      rw [List.cons_append]
      exact skipJsonWs_cons c _ (isJsonWsChar_of_digit c hc)

lemma skipJsonWs_printJson (j : Json) (rest : List Char) :
    skipJsonWs (printJson j ++ rest) = printJson j ++ rest := by
  cases j with
  | null => exact skipJsonWs_cons 'n' _ (by decide)
  | bool b =>
    cases b with
    | true => exact skipJsonWs_cons 't' _ (by decide)
    | false => exact skipJsonWs_cons 'f' _ (by decide)
  | num q =>
    show skipJsonWs (printInt q.num ++ rest) = printInt q.num ++ rest
    exact skipJsonWs_printInt q.num rest
  | str s => exact skipJsonWs_cons quoteChar _ (by decide)
  | arr l => exact skipJsonWs_cons lbrackChar _ (by decide)
  | obj ms => exact skipJsonWs_cons lbraceChar _ (by decide)

lemma printJsonElems_nonempty_eq (v : Json) (vs : List Json) (x : List Char) :
    ∃ y, printJsonElems (v :: vs) ++ x = printJson v ++ y := by
  cases vs with
  | nil => exact ⟨x, rfl⟩
  | cons w ws =>
    refine ⟨commaChar :: printJsonElems (w :: ws) ++ x, ?_⟩
    show (printJson v ++ commaChar :: printJsonElems (w :: ws)) ++ x =
      printJson v ++ (commaChar :: printJsonElems (w :: ws) ++ x)
    simp

lemma skipJsonWs_printJsonElems (v : Json) (vs : List Json) (x : List Char) :
    skipJsonWs (printJsonElems (v :: vs) ++ x) = printJsonElems (v :: vs) ++ x := by
  obtain ⟨y, hy⟩ := printJsonElems_nonempty_eq v vs x
  rw [hy]
  exact skipJsonWs_printJson v y

lemma skipJsonWs_printJsonMembers (kv : String × Json) (ms : List (String × Json))
    (x : List Char) :
    skipJsonWs (printJsonMembers (kv :: ms) ++ x) =
      printJsonMembers (kv :: ms) ++ x := by
  have hshape : ∃ y, printJsonMembers (kv :: ms) ++ x = quoteChar :: y := by
    cases ms with
    | nil =>
      refine ⟨(escapeChars kv.1.data ++ [quoteChar]) ++ colonChar :: printJson kv.2 ++ x,
        ?_⟩
      show ((quoteChar :: escapeChars kv.1.data ++ [quoteChar]) ++
          colonChar :: printJson kv.2) ++ x = _
      simp
    | cons kw ks =>
      refine ⟨(escapeChars kv.1.data ++ [quoteChar]) ++ colonChar :: printJson kv.2 ++
        commaChar :: printJsonMembers (kw :: ks) ++ x, ?_⟩
      show ((quoteChar :: escapeChars kv.1.data ++ [quoteChar]) ++
          colonChar :: printJson kv.2 ++ commaChar :: printJsonMembers (kw :: ks)) ++ x = _
      simp
  obtain ⟨y, hy⟩ := hshape
  rw [hy]
  exact skipJsonWs_cons quoteChar y (by decide)

lemma numBoundary_nil : NumBoundary [] := by
  intro c h
  exact Option.noConfusion h

lemma numBoundary_comma (x : List Char) : NumBoundary (commaChar :: x) := by
  intro c h
  have : c = commaChar := (Option.some.inj h).symm
  subst this
  exact ⟨by decide, by decide, by decide, by decide⟩

lemma numBoundary_rbrack (x : List Char) : NumBoundary (rbrackChar :: x) := by
  intro c h
  have : c = rbrackChar := (Option.some.inj h).symm
  subst this
  exact ⟨by decide, by decide, by decide, by decide⟩

lemma numBoundary_rbrace (x : List Char) : NumBoundary (rbraceChar :: x) := by
  intro c h
  have : c = rbraceChar := (Option.some.inj h).symm
  subst this
  exact ⟨by decide, by decide, by decide, by decide⟩

lemma escapeChar_length_pos (c : Char) : 1 ≤ (escapeChar c).length := by
  rw [escapeChar]
  split_ifs <;> simp

lemma escapeChars_length_ge (s : List Char) :
    s.length ≤ (escapeChars s).length := by
  induction s with
  | nil => simp [escapeChars]
  | cons c t ih =>
    rw [escapeChars, List.length_append, List.length_cons]
    have := escapeChar_length_pos c
    omega

lemma jsonFuel_pos (j : Json) : 1 ≤ jsonFuel j := by
  cases j <;> simp [jsonFuel] <;> omega

lemma parseValue_number_step (f : Nat) (c : Char) (t : List Char)
    (hq : (c == quoteChar) = false) (hlb : (c == lbrackChar) = false)
    (hlc : (c == lbraceChar) = false) (hn : (c == 'n') = false)
    (ht : (c == 't') = false) (hf : (c == 'f') = false) :
    parseValue (f + 1) (c :: t) =
      (parseJsonNumber (c :: t)).map (fun r => (Json.num r.1, r.2)) := by
  simp only [parseValue, hq, hlb, hlc, hn, ht, hf, Bool.false_eq_true, if_false]

lemma parseValue_arr_step (f : Nat) (t : List Char) (d : Char) (t' : List Char)
    (hskip : skipJsonWs t = d :: t') (hd : (d == rbrackChar) = false) :
    parseValue (f + 1) (lbrackChar :: t) =
      (parseElems f (d :: t')).map (fun r => (Json.arr r.1, r.2)) := by
  simp only [parseValue]
  rw [show (lbrackChar == quoteChar) = false from rfl,
    show (lbrackChar == lbrackChar) = true from rfl]
  simp only [Bool.false_eq_true, if_false, if_true]
  rw [hskip]
  dsimp only
  rw [hd]
  simp [Bool.false_eq_true]

lemma parseValue_obj_step (f : Nat) (t : List Char) (d : Char) (t' : List Char)
    (hskip : skipJsonWs t = d :: t') (hd : (d == rbraceChar) = false) :
    parseValue (f + 1) (lbraceChar :: t) =
      (parseMembers f (d :: t')).map (fun r => (Json.obj r.1, r.2)) := by
  simp only [parseValue]
  rw [show (lbraceChar == quoteChar) = false from rfl,
    show (lbraceChar == lbrackChar) = false from rfl,
    show (lbraceChar == lbraceChar) = true from rfl]
  simp only [Bool.false_eq_true, if_false, if_true]
  rw [hskip]
  dsimp only
  rw [hd]
  simp [Bool.false_eq_true]

lemma printInt_head (i : Int) :
    ∃ c t, printInt i = c :: t ∧
      (c == quoteChar) = false ∧ (c == lbrackChar) = false ∧
      (c == lbraceChar) = false ∧ (c == 'n') = false ∧ (c == 't') = false ∧
      (c == 'f') = false ∧ (c == rbrackChar) = false ∧
      (c == rbraceChar) = false := by
  by_cases hneg : i < 0
  · exact ⟨'-', natToDigits i.natAbs, by rw [printInt, if_pos hneg], rfl,
      rfl, rfl, rfl, rfl, rfl, rfl, rfl⟩
  · cases hnd : natToDigits i.natAbs with
    | nil => exact absurd hnd (natToDigits_ne_nil _)
    | cons c t =>
      have hc : isDigitChar c = true := by
        apply natToDigits_all_digits
        rw [hnd]
        exact List.mem_cons_self _ _
      obtain ⟨h1, h2⟩ := isDigitChar_range c hc
      refine ⟨c, t, by rw [printInt, if_neg hneg, hnd], ?_, ?_, ?_, ?_, ?_, ?_, ?_, ?_⟩ <;>
        exact beq_eq_false_of_toNat_ne c _ (by
          first
          | (rw [show quoteChar.toNat = 34 from rfl]; omega)
          | (rw [show lbrackChar.toNat = 91 from rfl]; omega)
          | (rw [show lbraceChar.toNat = 123 from rfl]; omega)
          | (rw [show ('n').toNat = 110 from rfl]; omega)
          | (rw [show ('t').toNat = 116 from rfl]; omega)
          | (rw [show ('f').toNat = 102 from rfl]; omega)
          | (rw [show rbrackChar.toNat = 93 from rfl]; omega)
          | (rw [show rbraceChar.toNat = 125 from rfl]; omega))

lemma printJson_head (j : Json) :
    ∃ c t, printJson j = c :: t ∧ (c == rbrackChar) = false ∧
      (c == rbraceChar) = false := by
  cases j with
  | null => exact ⟨'n', _, rfl, by decide, by decide⟩
  | bool b =>
    cases b with
    | true => exact ⟨'t', _, rfl, by decide, by decide⟩
    | false => exact ⟨'f', _, rfl, by decide, by decide⟩
  | num q =>
    obtain ⟨c, t, hct, _, _, _, _, _, _, h7, h8⟩ := printInt_head q.num
    exact ⟨c, t, by show printInt q.num = _; rw [hct], h7, h8⟩
  | str s => exact ⟨quoteChar, _, rfl, by decide, by decide⟩
  | arr l => exact ⟨lbrackChar, _, rfl, by decide, by decide⟩
  | obj ms => exact ⟨lbraceChar, _, rfl, by decide, by decide⟩

lemma rat_of_den_one (q : Rat) (h : q.den = 1) : (q.num : Rat) = q := by
  rw [← Rat.num_div_den q, h]
  simp

lemma parsePrint_all : ∀ n : Nat,
    (∀ j : Json, jsonFuel j ≤ n → IntegralJson j →
      ∀ fuel rest, jsonFuel j ≤ fuel → NumBoundary rest →
        parseValue fuel (printJson j ++ rest) = some (j, rest)) ∧
    (∀ l : List Json, listFuel l ≤ n → (∀ v ∈ l, IntegralJson v) → l ≠ [] →
      ∀ fuel rest, listFuel l ≤ fuel →
        parseElems fuel (printJsonElems l ++ rbrackChar :: rest) = some (l, rest)) ∧
    (∀ ms : List (String × Json), membersFuel ms ≤ n →
      (∀ kv ∈ ms, IntegralJson kv.2) → ms ≠ [] →
      ∀ fuel rest, membersFuel ms ≤ fuel →
        parseMembers fuel (printJsonMembers ms ++ rbraceChar :: rest) =
          some (ms, rest)) := by
  intro n
  induction n with
  | zero =>
    refine ⟨?_, ?_, ?_⟩
    · intro j hj
      exact absurd hj (by have := jsonFuel_pos j; omega)
    · intro l hl _ hne
      cases l with
      | nil => exact absurd rfl hne
      | cons v vs =>
        rw [listFuel] at hl
        omega
    · intro ms hm _ hne
      cases ms with
      | nil => exact absurd rfl hne
      | cons kv ks =>
        rw [membersFuel] at hm
        omega
  | succ n ih =>
    obtain ⟨ihV, ihE, ihM⟩ := ih
    have valuePart : ∀ j : Json, jsonFuel j ≤ n + 1 → IntegralJson j →
        ∀ fuel rest, jsonFuel j ≤ fuel → NumBoundary rest →
          parseValue fuel (printJson j ++ rest) = some (j, rest) := by
      intro j hj hint fuel rest hfuel hrest
      cases j with
      | null =>
        cases fuel with
        | zero => rw [jsonFuel] at hfuel; omega
        | succ f => rfl
      | bool b =>
        cases fuel with
        | zero => rw [jsonFuel] at hfuel; omega
        | succ f => cases b <;> rfl
      | num q =>
        cases fuel with
        | zero => rw [jsonFuel] at hfuel; omega
        | succ f =>
          have hden : q.den = 1 := by
            cases hint with
            | num _ h => exact h
          obtain ⟨c, t, hct, h1, h2, h3, h4, h5, h6, _, _⟩ := printInt_head q.num
          have hinput : printJson (Json.num q) ++ rest = c :: (t ++ rest) := by
            show printInt q.num ++ rest = _
            rw [hct]
            rfl
          rw [hinput, parseValue_number_step f c (t ++ rest) h1 h2 h3 h4 h5 h6]
          rw [show c :: (t ++ rest) = printInt q.num ++ rest from by rw [hct]; rfl]
          rw [parseJsonNumber_printInt q.num rest hrest]
          dsimp only [Option.map]
          rw [rat_of_den_one q hden]
      | str s =>
        cases fuel with
        | zero => rw [jsonFuel] at hfuel; omega
        | succ f =>
          have hinput : printJson (Json.str s) ++ rest =
              quoteChar :: (escapeChars s.data ++ quoteChar :: rest) := by
            show (quoteChar :: escapeChars s.data ++ [quoteChar]) ++ rest = _
            simp
          rw [hinput]
          have hstep : parseValue (f + 1)
              (quoteChar :: (escapeChars s.data ++ quoteChar :: rest)) =
              (parseStringBody ((escapeChars s.data ++ quoteChar :: rest).length + 1)
                (escapeChars s.data ++ quoteChar :: rest)).map
                (fun r => (Json.str (String.mk r.1), r.2)) := rfl
          rw [hstep]
          rw [parseStringBody_escape rest s.data _ (by
            have := escapeChars_length_ge s.data
            rw [List.length_append]
            omega)]
          rfl
      | arr l =>
        cases l with
        | nil =>
          cases fuel with
          | zero => rw [jsonFuel] at hfuel; simp [listFuel] at hfuel
          | succ f => rfl
        | cons v vs =>
          cases fuel with
          | zero =>
            rw [jsonFuel] at hfuel
            omega
          | succ f =>
            have hjl : listFuel (v :: vs) ≤ n := by
              rw [jsonFuel] at hj
              omega
            have hfl : listFuel (v :: vs) ≤ f := by
              rw [jsonFuel] at hfuel
              omega
            have hints : ∀ x ∈ v :: vs, IntegralJson x := by
              cases hint with
              | arr _ h => exact h
            have hinput : printJson (Json.arr (v :: vs)) ++ rest =
                lbrackChar :: (printJsonElems (v :: vs) ++ rbrackChar :: rest) := by
              show (lbrackChar :: printJsonElems (v :: vs) ++ [rbrackChar]) ++ rest = _
              simp
            obtain ⟨c, t, hct, hc1, _⟩ := printJson_head v
            obtain ⟨y, hy⟩ := printJsonElems_nonempty_eq v vs (rbrackChar :: rest)
            have hT : printJsonElems (v :: vs) ++ rbrackChar :: rest = c :: (t ++ y) := by
              rw [hy, hct]
              rfl
            have hskip : skipJsonWs (printJsonElems (v :: vs) ++ rbrackChar :: rest) =
                c :: (t ++ y) := by
              rw [skipJsonWs_printJsonElems v vs (rbrackChar :: rest)]
              exact hT
            rw [hinput, parseValue_arr_step f _ c (t ++ y) hskip hc1]
            rw [← hT]
            rw [ihE (v :: vs) hjl hints (List.cons_ne_nil v vs) f rest hfl]
            rfl
      | obj ms =>
        cases ms with
        | nil =>
          cases fuel with
          | zero => rw [jsonFuel] at hfuel; simp [membersFuel] at hfuel
          | succ f => rfl
        | cons kv ks =>
          cases fuel with
          | zero =>
            rw [jsonFuel] at hfuel
            omega
          | succ f =>
            have hjm : membersFuel (kv :: ks) ≤ n := by
              rw [jsonFuel] at hj
              omega
            have hfm : membersFuel (kv :: ks) ≤ f := by
              rw [jsonFuel] at hfuel
              omega
            have hints : ∀ x ∈ kv :: ks, IntegralJson x.2 := by
              cases hint with
              | obj _ h => exact h
            have hinput : printJson (Json.obj (kv :: ks)) ++ rest =
                lbraceChar :: (printJsonMembers (kv :: ks) ++ rbraceChar :: rest) := by
              show (lbraceChar :: printJsonMembers (kv :: ks) ++ [rbraceChar]) ++ rest = _
              simp
            have hskipm := skipJsonWs_printJsonMembers kv ks (rbraceChar :: rest)
            have hshape : ∃ y, printJsonMembers (kv :: ks) ++ rbraceChar :: rest =
                quoteChar :: y := by
              cases ks with
              | nil =>
                refine ⟨(escapeChars kv.1.data ++ [quoteChar]) ++
                  colonChar :: printJson kv.2 ++ rbraceChar :: rest, ?_⟩
                show ((quoteChar :: escapeChars kv.1.data ++ [quoteChar]) ++
                  colonChar :: printJson kv.2) ++ rbraceChar :: rest = _
                simp
              | cons kw kks =>
                refine ⟨(escapeChars kv.1.data ++ [quoteChar]) ++
                  colonChar :: printJson kv.2 ++
                  commaChar :: printJsonMembers (kw :: kks) ++ rbraceChar :: rest, ?_⟩
                show ((quoteChar :: escapeChars kv.1.data ++ [quoteChar]) ++
                  colonChar :: printJson kv.2 ++
                  commaChar :: printJsonMembers (kw :: kks)) ++ rbraceChar :: rest = _
                simp
            obtain ⟨y, hyeq⟩ := hshape
            have hskip : skipJsonWs (printJsonMembers (kv :: ks) ++ rbraceChar :: rest) =
                quoteChar :: y := by
              rw [hskipm]
              exact hyeq
            rw [hinput, parseValue_obj_step f _ quoteChar y hskip (by decide)]
            rw [← hyeq]
            rw [ihM (kv :: ks) hjm hints (List.cons_ne_nil kv ks) f rest hfm]
            rfl
    refine ⟨valuePart, ?_, ?_⟩
    · intro l hln hints hne fuel rest hlf
      cases l with
      | nil => exact absurd rfl hne
      | cons v vs =>
        cases fuel with
        | zero =>
          rw [listFuel] at hlf
          omega
        | succ f =>
          have hfv : jsonFuel v ≤ f := by
            rw [listFuel] at hlf
            omega
          have hnv : jsonFuel v ≤ n + 1 := by
            rw [listFuel] at hln
            have := jsonFuel_pos v
            omega
          cases vs with
          | nil =>
            have hv := valuePart v hnv (hints v (List.mem_cons_self _ _)) f
              (rbrackChar :: rest) hfv (numBoundary_rbrack rest)
            simp only [parseElems]
            rw [show printJsonElems [v] = printJson v from rfl, hv]
            rfl
          | cons w ws =>
            have hinput : printJsonElems (v :: w :: ws) ++ rbrackChar :: rest =
                printJson v ++
                  (commaChar :: (printJsonElems (w :: ws) ++ rbrackChar :: rest)) := by
              show (printJson v ++ commaChar :: printJsonElems (w :: ws)) ++
                rbrackChar :: rest = _
              simp
            have hv := valuePart v hnv (hints v (List.mem_cons_self _ _)) f
              (commaChar :: (printJsonElems (w :: ws) ++ rbrackChar :: rest)) hfv
              (numBoundary_comma _)
            have hrec := ihE (w :: ws)
              (by rw [listFuel] at hln; omega)
              (fun x hx => hints x (List.mem_cons_of_mem _ hx))
              (List.cons_ne_nil w ws) f rest
              (by rw [listFuel] at hlf; omega)
            simp only [parseElems]
            rw [hinput, hv]
            dsimp only
            rw [skipJsonWs_cons commaChar _ (by decide)]
            dsimp only
            rw [show (commaChar == commaChar) = true from rfl]
            simp only [if_true]
            rw [skipJsonWs_printJsonElems w ws (rbrackChar :: rest), hrec]
    · intro ms hmn hints hne fuel rest hmf
      cases ms with
      | nil => exact absurd rfl hne
      | cons kv ks =>
        obtain ⟨k, v⟩ := kv
        cases fuel with
        | zero =>
          rw [membersFuel] at hmf
          omega
        | succ f =>
          have hfv : jsonFuel v ≤ f := by
            rw [membersFuel] at hmf
            dsimp only at hmf
            omega
          have hnv : jsonFuel v ≤ n + 1 := by
            rw [membersFuel] at hmn
            dsimp only at hmn
            have := jsonFuel_pos v
            omega
          cases ks with
          | nil =>
            have hinput : printJsonMembers [(k, v)] ++ rbraceChar :: rest =
                quoteChar :: (escapeChars k.data ++
                  quoteChar :: (colonChar :: (printJson v ++ rbraceChar :: rest))) := by
              show ((quoteChar :: escapeChars k.data ++ [quoteChar]) ++
                colonChar :: printJson v) ++ rbraceChar :: rest = _
              simp
            have hv := valuePart v hnv (hints (k, v) (List.mem_cons_self _ _)) f
              (rbraceChar :: rest) hfv (numBoundary_rbrace rest)
            simp only [parseMembers]
            rw [hinput]
            dsimp only
            rw [show (quoteChar == quoteChar) = true from rfl]
            simp only [if_true]
            rw [parseStringBody_escape
              (colonChar :: (printJson v ++ rbraceChar :: rest)) k.data _ (by
                have := escapeChars_length_ge k.data
                rw [List.length_append]
                omega)]
            dsimp only
            rw [skipJsonWs_cons colonChar _ (by decide)]
            dsimp only
            rw [show (colonChar == colonChar) = true from rfl]
            simp only [if_true]
            rw [skipJsonWs_printJson v (rbraceChar :: rest), hv]
            rfl
          | cons kw kks =>
            have hinput : printJsonMembers ((k, v) :: kw :: kks) ++ rbraceChar :: rest =
                quoteChar :: (escapeChars k.data ++
                  quoteChar :: (colonChar :: (printJson v ++
                    commaChar :: (printJsonMembers (kw :: kks) ++
                      rbraceChar :: rest)))) := by
              show ((quoteChar :: escapeChars k.data ++ [quoteChar]) ++
                colonChar :: printJson v ++
                commaChar :: printJsonMembers (kw :: kks)) ++ rbraceChar :: rest = _
              simp
            have hv := valuePart v hnv (hints (k, v) (List.mem_cons_self _ _)) f
              (commaChar :: (printJsonMembers (kw :: kks) ++ rbraceChar :: rest)) hfv
              (numBoundary_comma _)
            have hrec := ihM (kw :: kks)
              (by rw [membersFuel] at hmn; dsimp only at hmn; omega)
              (fun x hx => hints x (List.mem_cons_of_mem _ hx))
              (List.cons_ne_nil kw kks) f rest
              (by rw [membersFuel] at hmf; dsimp only at hmf; omega)
            simp only [parseMembers]
            rw [hinput]
            dsimp only
            rw [show (quoteChar == quoteChar) = true from rfl]
            simp only [if_true]
            rw [parseStringBody_escape
              (colonChar :: (printJson v ++
                commaChar :: (printJsonMembers (kw :: kks) ++ rbraceChar :: rest)))
              k.data _ (by
                have := escapeChars_length_ge k.data
                rw [List.length_append]
                omega)]
            dsimp only
            rw [skipJsonWs_cons colonChar _ (by decide)]
            dsimp only
            rw [show (colonChar == colonChar) = true from rfl]
            simp only [if_true]
            rw [skipJsonWs_printJson v
              (commaChar :: (printJsonMembers (kw :: kks) ++ rbraceChar :: rest)), hv]
            dsimp only
            rw [skipJsonWs_cons commaChar _ (by decide)]
            dsimp only
            rw [show (commaChar == commaChar) = true from rfl]
            simp only [if_true]
            rw [skipJsonWs_printJsonMembers kw kks (rbraceChar :: rest), hrec]

lemma fuelBound_all : ∀ n : Nat,
    (∀ j : Json, jsonFuel j ≤ n → jsonFuel j ≤ 2 * (printJson j).length) ∧
    (∀ l : List Json, listFuel l ≤ n →
      listFuel l ≤ 2 * (printJsonElems l).length + 1) ∧
    (∀ ms : List (String × Json), membersFuel ms ≤ n →
      membersFuel ms ≤ 2 * (printJsonMembers ms).length + 1) := by
  intro n
  induction n with
  | zero =>
    refine ⟨?_, ?_, ?_⟩
    · intro j hj
      exact absurd hj (by have := jsonFuel_pos j; omega)
    · intro l hl
      cases l with
      | nil => simp [listFuel]
      | cons v vs => rw [listFuel] at hl; have := jsonFuel_pos v; omega
    · intro ms hm
      cases ms with
      | nil => simp [membersFuel]
      | cons kv ks => rw [membersFuel] at hm; have := jsonFuel_pos kv.2; omega
  | succ n ih =>
    obtain ⟨ihV, ihE, ihM⟩ := ih
    have valuePart : ∀ j : Json, jsonFuel j ≤ n + 1 →
        jsonFuel j ≤ 2 * (printJson j).length := by
      intro j hj
      cases j with
      | null => simp [jsonFuel, printJson]
      | bool b => cases b <;> simp [jsonFuel, printJson]
      | num q =>
        have hlen : 1 ≤ (printRat q).length := by
          rw [printRat, printInt]
          by_cases hneg : q.num < 0
          · simp [hneg]
          · rw [if_neg hneg]
            have := natToDigits_ne_nil q.num.natAbs
            cases hnd : natToDigits q.num.natAbs with
            | nil => exact absurd hnd this
            | cons c t => simp
        show jsonFuel (Json.num q) ≤ 2 * (printRat q).length
        rw [jsonFuel]
        omega
      | str s =>
        show jsonFuel (Json.str s) ≤ 2 * (printJsonString s).length
        rw [jsonFuel, printJsonString]
        simp only [List.length_cons, List.length_append, List.length_singleton]
        omega
      | arr l =>
        rw [jsonFuel] at hj ⊢
        have hl : listFuel l ≤ n := by omega
        have := ihE l hl
        show 1 + listFuel l ≤ 2 * (lbrackChar :: printJsonElems l ++ [rbrackChar]).length
        simp only [List.length_cons, List.length_append, List.length_singleton]
        omega
      | obj ms =>
        rw [jsonFuel] at hj ⊢
        have hm : membersFuel ms ≤ n := by omega
        have := ihM ms hm
        show 1 + membersFuel ms ≤
          2 * (lbraceChar :: printJsonMembers ms ++ [rbraceChar]).length
        simp only [List.length_cons, List.length_append, List.length_singleton]
        omega
    refine ⟨valuePart, ?_, ?_⟩
    · intro l hl
      cases l with
      | nil => simp [listFuel]
      | cons v vs =>
        rw [listFuel] at hl ⊢
        have hv := valuePart v (by have := jsonFuel_pos v; omega)
        cases vs with
        | nil =>
          show 1 + jsonFuel v + listFuel [] ≤ 2 * (printJson v).length + 1
          rw [listFuel]
          omega
        | cons w ws =>
          have hrec := ihE (w :: ws) (by rw [listFuel] at hl ⊢; omega)
          show 1 + jsonFuel v + listFuel (w :: ws) ≤
            2 * (printJson v ++ commaChar :: printJsonElems (w :: ws)).length + 1
          simp only [List.length_append, List.length_cons]
          omega
    · intro ms hm
      cases ms with
      | nil => simp [membersFuel]
      | cons kv ks =>
        rw [membersFuel] at hm ⊢
        have hv := valuePart kv.2 (by have := jsonFuel_pos kv.2; omega)
        cases ks with
        | nil =>
          show 1 + jsonFuel kv.2 + membersFuel [] ≤
            2 * (printJsonString kv.1 ++ colonChar :: printJson kv.2).length + 1
          rw [membersFuel]
          simp only [List.length_append, List.length_cons]
          omega
        | cons kw kks =>
          have hrec := ihM (kw :: kks) (by omega)
          show 1 + jsonFuel kv.2 + membersFuel (kw :: kks) ≤
            2 * (printJsonString kv.1 ++ colonChar :: printJson kv.2 ++
              commaChar :: printJsonMembers (kw :: kks)).length + 1
          simp only [List.length_append, List.length_cons]
          omega

lemma skipJsonWs_printJson_nil (j : Json) :
    skipJsonWs (printJson j) = printJson j := by
  have := skipJsonWs_printJson j []
  simpa using this

/-- `JSON.parse` inverts `JSON.stringify` on every integer-valued JSON
value. -/
lemma parseJson_print (j : Json) (hint : IntegralJson j) :
    parseJson (String.mk (printJson j)) = some j := by
  have hfuel : jsonFuel j ≤ 2 * (printJson j).length + 2 := by
    have := (fuelBound_all (jsonFuel j)).1 j le_rfl
    omega
  have hv : parseValue (2 * (printJson j).length + 2) (printJson j) =
      some (j, []) := by
    have := (parsePrint_all (jsonFuel j)).1 j le_rfl hint
      (2 * (printJson j).length + 2) [] hfuel numBoundary_nil
    simpa using this
  rw [parseJson]
  rw [show (String.mk (printJson j)).data = printJson j from rfl]
  rw [skipJsonWs_printJson_nil j, hv]
  rfl

/-! ## localStorage persistence of the basket (`useStaplesBasket.ts`) -/

/-- `BASKET_STORAGE_KEY` from `useStaplesBasket.ts`. -/
def BASKET_STORAGE_KEY : String := "staples-basket"

/-- The JSON object `JSON.stringify` sees for one basket line: the fields in
the insertion order of the object literal
`{ product_id, product_name, quantity }`. -/
def itemToJson (item : BasketItemWithName) : Json :=
  Json.obj
    [("product_id", Json.num (item.product_id : Rat)),
     ("product_name", Json.str item.product_name),
     ("quantity", Json.num item.quantity)]

/-- `JSON.stringify(items)` as written by the save effect. -/
def saveBasket (items : List BasketItemWithName) : String :=
  String.mk (printJson (Json.arr (items.map itemToJson)))

/-- The save effect of `useStaplesBasket`:
`localStorage.setItem(BASKET_STORAGE_KEY, JSON.stringify(items))`, on
localStorage modelled as a key-to-value map. -/
def saveBasketEffect (storage : String → Option String)
    (items : List BasketItemWithName) : String → Option String :=
  fun k => if k == BASKET_STORAGE_KEY then some (saveBasket items) else storage k

/-- The mount effect of `useStaplesBasket`: read the stored value; a missing
key, a `JSON.parse` failure (the caught exception) or a non-array parse all
leave the initial `[]` state; an array becomes the basket state as-is (the
code performs no further validation of the elements). -/
def loadBasket (storage : String → Option String) : List Json :=
  match storage BASKET_STORAGE_KEY with
  | none => []
  | some stored =>
    match parseJson stored with
    | some (Json.arr parsed) => parsed
    | _ => []

/-- Does the stored string parse as a JSON array?  (`Array.isArray(parsed)`
after a successful `JSON.parse`.) -/
def parsesToArray (s : String) : Bool :=
  match parseJson s with
  | some (Json.arr _) => true
  | _ => false

lemma itemToJson_integral (item : BasketItemWithName)
    (h : item.quantity.den = 1) : IntegralJson (itemToJson item) := by
  refine IntegralJson.obj _ ?_
  intro kv hkv
  simp only [List.mem_cons, List.mem_singleton] at hkv
  rcases hkv with rfl | rfl | rfl | hfalse
  · exact IntegralJson.num _ (Rat.den_intCast item.product_id)
  · exact IntegralJson.str _
  · exact IntegralJson.num _ h
  · exact absurd hfalse (List.not_mem_nil kv)

lemma basket_json_integral (items : List BasketItemWithName)
    (h : ∀ item ∈ items, item.quantity.den = 1) :
    IntegralJson (Json.arr (items.map itemToJson)) := by
  refine IntegralJson.arr _ ?_
  intro v hv
  obtain ⟨item, hitem, rfl⟩ := List.mem_map.mp hv
  exact itemToJson_integral item (h item hitem)

/-- C4: the localStorage-backed basket round-trips: after a save, the stored
value under 'staples-basket' is the JSON of the items (other keys untouched),
and the mount effect restores exactly the saved items; a stored value that is
absent, is not valid JSON, or is valid JSON but not an array leaves the
basket empty.  Quantities are required to be integers, which is what
`JSON.stringify`'s number printing is modelled on (every quantity the hook
itself writes is an integer). -/
theorem c4_localStorage_round_trip :
    (∀ (storage : String → Option String) (items : List BasketItemWithName),
      (∀ item ∈ items, item.quantity.den = 1) →
      saveBasketEffect storage items BASKET_STORAGE_KEY = some (saveBasket items) ∧
      (∀ k, k ≠ BASKET_STORAGE_KEY → saveBasketEffect storage items k = storage k) ∧
      loadBasket (saveBasketEffect storage items) = items.map itemToJson) ∧
    (∀ storage : String → Option String,
      storage BASKET_STORAGE_KEY = none → loadBasket storage = []) ∧
    (∀ (storage : String → Option String) (s : String),
      storage BASKET_STORAGE_KEY = some s → parsesToArray s = false →
      loadBasket storage = []) := by
  refine ⟨?_, ?_, ?_⟩
  · intro storage items hint
    have hkey : saveBasketEffect storage items BASKET_STORAGE_KEY =
        some (saveBasket items) := rfl
    refine ⟨hkey, ?_, ?_⟩
    · intro k hk
      show (if k == BASKET_STORAGE_KEY then some (saveBasket items) else storage k) =
        storage k
      have hne : (k == BASKET_STORAGE_KEY) = false := by
        rw [beq_eq_false_iff_ne]
        exact hk
      rw [hne]
      rfl
    · rw [loadBasket, hkey]
      dsimp only
      rw [show parseJson (saveBasket items) =
          some (Json.arr (items.map itemToJson)) from
        parseJson_print _ (basket_json_integral items hint)]
  · intro storage h
    rw [loadBasket, h]
  · intro storage s hs hparse
    rw [loadBasket, hs]
    dsimp only
    rw [parsesToArray] at hparse
    cases hp : parseJson s with
    | none => rfl
    | some v =>
      cases v with
      | arr l =>
        rw [hp] at hparse
        exact absurd hparse (by simp)
      | null => rfl
      | bool b => rfl
      | num q => rfl
      | str str => rfl
      | obj ms => rfl

/-- C4 witness: saving the concrete one-line basket `[⟨1, "Milk", 2⟩]` into an
empty localStorage and reloading restores it; a missing key, the malformed
stored string "\x7bnot json" and the non-array stored string "42" all leave
the basket empty. -/
theorem c4_localStorage_round_trip_witness :
    (saveBasketEffect (fun _ => none) [⟨1, "Milk", 2⟩] BASKET_STORAGE_KEY =
      some (saveBasket [⟨1, "Milk", 2⟩]) ∧
     (∀ k, k ≠ BASKET_STORAGE_KEY →
       saveBasketEffect (fun _ => none) [⟨1, "Milk", 2⟩] k = (fun _ => none) k) ∧
     loadBasket (saveBasketEffect (fun _ => none) [⟨1, "Milk", 2⟩]) =
       ([⟨1, "Milk", 2⟩] : List BasketItemWithName).map itemToJson) ∧
    loadBasket (fun _ => none) = [] ∧
    loadBasket (fun k =>
      if k == BASKET_STORAGE_KEY then some "\x7bnot json" else none) = [] ∧
    loadBasket (fun k => if k == BASKET_STORAGE_KEY then some "42" else none) = [] :=
  ⟨c4_localStorage_round_trip.1 (fun _ => none) [⟨1, "Milk", 2⟩]
      (fun item h => by
        rw [List.mem_singleton] at h
        rw [h]
        rfl),
   c4_localStorage_round_trip.2.1 (fun _ => none) rfl,
   c4_localStorage_round_trip.2.2
     (fun k => if k == BASKET_STORAGE_KEY then some "\x7bnot json" else none)
     "\x7bnot json" rfl rfl,
   c4_localStorage_round_trip.2.2
     (fun k => if k == BASKET_STORAGE_KEY then some "42" else none)
     "42" rfl rfl⟩

end TrolleySaver
